import Mathlib

/-
Verification of the gen3 secret-bootstrapping reconciliation handler.

The development shallowly embeds the custom-resource handler of the
repository (the reconciliation driver that seeds application secrets with a
create-if-missing, never-overwrite, never-delete contract) together with its
store gateway, cross-secret extractors and bundle builders.

Modelling conventions:
* JSON documents are the inductive `JSONValue`; a stored secret is either a
  JSON payload (`SecretValue.json`) or an opaque plaintext string
  (`SecretValue.plain`, used for the PEM signing key).
* The external secret store is an association list from names to values; the
  handler runs in the state monad `SM` over the store, an operation trace and
  an entropy counter.  Errors thrown by the source are `Except.error`; the
  state at the point of the throw is kept, so store invariants can be stated
  on failing runs as well.
* Randomness (alphanumeric passwords, base64 key material, RSA PEM text) is
  modelled by an oracle stream `ent : Nat -> String`; each generation takes
  the next element of the stream.  The requested password length only shapes
  the generated text in the source and is absorbed into the oracle.
* JavaScript truthiness, `||` / `??` defaulting and optional chaining are
  modelled explicitly (`jsTruthy`, `jsOr`, `jsNullish`, `jsField`).
* `getSecretJson` parses the stored string; on the plaintext PEM payloads this
  system writes, `JSON.parse` always fails, so reading a `plain` secret as
  JSON is modelled as a parse error.
-/

set_option linter.unusedVariables false

namespace Gen3Secrets

/-- JSON values, the payload language of the secret store. -/
inductive JSONValue where
  | null
  | bool (b : Bool)
  | num (n : Int)
  | str (s : String)
  | arr (xs : List JSONValue)
  | obj (fields : List (String × JSONValue))

/-- A persisted secret: a JSON document or an opaque plaintext string. -/
inductive SecretValue where
  | json (v : JSONValue)
  | plain (s : String)

/-- Operations issued against the external secret store. -/
inductive StoreOp where
  | describe (name : String)
  | read (name : String)
  | create (name : String)
  | tag (name : String)

/-- State threaded through one reconciliation pass: the external store, the
trace of store operations (most recent first) and the number of entropy
draws taken so far. -/
structure SMState where
  store : List (String × SecretValue)
  trace : List StoreOp
  ctr : Nat

/-- The handler monad: state plus string-labelled exceptions.  The state at
the moment of a throw is retained. -/
def SM (α : Type) : Type := SMState → Except String α × SMState

instance : Monad SM where
  pure := fun a s => (Except.ok a, s)
  bind := fun m f s =>
    match m s with
    | (Except.ok a, t) => f a t
    | (Except.error e, t) => (Except.error e, t)

/-- Throw an error, keeping the current state. -/
def throwSM {α : Type} (e : String) : SM α := fun s => (Except.error e, s)

/-- First-match lookup in the store. -/
def findSecret : List (String × SecretValue) → String → Option SecretValue
  | [], _ => none
  | (n, v) :: rest, name => if n = name then some v else findSecret rest name

/-- First-match lookup in a string-valued association list. -/
def lookupStr : List (String × String) → String → Option String
  | [], _ => none
  | (k, v) :: rest, key => if k = key then some v else lookupStr rest key

/-- JavaScript truthiness of a JSON value. -/
def jsTruthy : JSONValue → Bool
  | JSONValue.null => false
  | JSONValue.bool b => b
  | JSONValue.num n => n != 0
  | JSONValue.str s => s != ""
  | JSONValue.arr _ => true
  | JSONValue.obj _ => true

/-- Whether a JSON value is nullish (`null`/`undefined`; the embedding
conflates the two since the handler never distinguishes them). -/
def jsIsNullish : JSONValue → Bool
  | JSONValue.null => true
  | _ => false

/-- Field access in an object field list (JS objects have unique keys, so
first match is exact). -/
def jsFieldList : List (String × JSONValue) → String → JSONValue
  | [], _ => JSONValue.null
  | (k, v) :: rest, key => if k = key then v else jsFieldList rest key

/-- Optional-chained member access `v?.[k]`: `null` stands for both a missing
property and access on a non-object. -/
def jsField (v : JSONValue) (k : String) : JSONValue :=
  match v with
  | JSONValue.obj fields => jsFieldList fields k
  | _ => JSONValue.null

/-- JS `||` defaulting on an optional string: absent and empty are falsy. -/
def jsOr (o : Option String) (d : String) : String :=
  match o with
  | some s => if s = "" then d else s
  | none => d

/-- JS `??` defaulting on an optional string: only absence falls through. -/
def jsNullish (o : Option String) (d : String) : String :=
  match o with
  | some s => s
  | none => d

/-- Truthiness of an optional string (`undefined` and `""` are falsy). -/
def optTruthy (o : Option String) : Bool :=
  match o with
  | some s => s != ""
  | none => false

mutual
/-- JS `String(-)` conversion.  The handler applies it only to the database
host and port read from the master secret, which are primitives. -/
def jsString : JSONValue → String
  | JSONValue.null => "null"
  | JSONValue.bool b => if b then "true" else "false"
  | JSONValue.num n => toString n
  | JSONValue.str s => s
  | JSONValue.arr xs => jsStringList xs
  | JSONValue.obj _ => "[object Object]"

/-- JS array stringification: comma-joined elements. -/
def jsStringList : List JSONValue → String
  | [] => ""
  | [x] => jsString x
  | x :: y :: rest => jsString x ++ "," ++ jsStringList (y :: rest)
end

/-- The base64 alphabet. -/
def b64Chars : List Char :=
  "ABCDEFGHIJKLMNOPQRSTUVWXYZabcdefghijklmnopqrstuvwxyz0123456789+/".data

/-- Character of a sextet. -/
def b64Char (n : Nat) : Char := b64Chars.getD n 'A'

/-- Base64 encoding of a byte list, three bytes at a time. -/
def base64EncodeBytes : List Nat → List Char
  | [] => []
  | [a] => [b64Char (a / 4), b64Char (a % 4 * 16), '=', '=']
  | [a, b] => [b64Char (a / 4), b64Char (a % 4 * 16 + b / 16), b64Char (b % 16 * 4), '=']
  | a :: b :: c :: rest =>
      b64Char (a / 4) :: b64Char (a % 4 * 16 + b / 16) ::
      b64Char (b % 16 * 4 + c / 64) :: b64Char (c % 64) :: base64EncodeBytes rest

/-- `Buffer.from(s, "utf8").toString("base64")` for the ASCII payloads this
system encodes (`gateway:<alnum>`), where UTF-8 bytes are the code points. -/
def base64Encode (s : String) : String :=
  String.mk (base64EncodeBytes (s.data.map Char.toNat))

/-- Index of a character in the base64 alphabet. -/
def b64Index (c : Char) : Option Nat :=
  b64Chars.findIdx? (fun x => x = c)

/-- Base64 decoding, four characters at a time, honouring `=` padding; `none`
on malformed input (Node decodes malformed input leniently, but the only
base64 text this system both writes and reads back is well-formed). -/
def b64DecodeQuads : List Char → Option (List Nat)
  | [] => some []
  | a :: b :: c :: d :: rest =>
      match b64Index a, b64Index b with
      | some sa, some sb =>
          if c = '=' then
            if d = '=' ∧ rest = [] then some [sa * 4 + sb / 16] else none
          else
            match b64Index c with
            | some sc =>
                if d = '=' then
                  if rest = [] then some [sa * 4 + sb / 16, sb % 16 * 16 + sc / 4] else none
                else
                  match b64Index d with
                  | some sd =>
                      match b64DecodeQuads rest with
                      | some bs =>
                          some ((sa * 4 + sb / 16) :: (sb % 16 * 16 + sc / 4) ::
                                (sc % 4 * 64 + sd) :: bs)
                      | none => none
                  | none => none
            | none => none
      | _, _ => none
  | _ => none

/-- `Buffer.from(b64, "base64").toString("utf8")` on the ASCII range. -/
def base64DecodeAscii (s : String) : Option String :=
  match b64DecodeQuads s.data with
  | some bs => some (String.mk (bs.map Char.ofNat))
  | none => none

/-! Cross-secret extractors.  These are pure functions on an already-fetched
payload.  The source guards every member access with optional chaining or a
`typeof`/`Array.isArray` test and wraps the one fallible conversion (base64
decoding) in a swallowing `try`/`catch`, so the faithful embedding is a total
function into `Option String`. -/

/-- First element of the `metadata.env` array that is a string starting with
`ADMIN_LOGINS=` (non-strings are skipped, as in `Array.prototype.find` with a
`typeof` test). -/
def findAdminLoginsLine : List Gen3Secrets.JSONValue → Option String
  | [] => none
  | Gen3Secrets.JSONValue.str s :: rest =>
      if s.startsWith "ADMIN_LOGINS=" then some s else findAdminLoginsLine rest
  | _ :: rest => findAdminLoginsLine rest

/-- Scan `user:password` pairs for user `gateway` with a truthy password
(splitting on `:`; a missing second component and the empty string are both
falsy, as in the source). -/
def findGatewayPair : List String → Option String
  | [] => none
  | pair :: rest =>
      let parts := pair.splitOn ":"
      let user := parts.headD ""
      let pwd := parts.getD 1 ""
      if user = "gateway" ∧ pwd ≠ "" then some pwd else findGatewayPair rest

/-- The `ADMIN_LOGINS=` route of the gateway-password extractor: locate the
env line, strip the 13-character prefix, split on commas, trim, and scan the
`user:password` pairs. -/
def gatewayFromEnvLines (meta : JSONValue) : Option String :=
  match jsField meta "metadata.env" with
  | JSONValue.arr xs =>
      match findAdminLoginsLine xs with
      | some line =>
          findGatewayPair (((line.drop 13).splitOn ",").map (fun s => s.trim))
      | none => none
  | _ => none

/-- The `base64Authz.txt` route of the gateway-password extractor: decode the
base64 field and accept a `gateway:<truthy password>` split.  A failing
decode is swallowed (the source wraps it in `try`/`catch`). -/
def gatewayFromBase64 (meta : JSONValue) : Option String :=
  match jsField meta "base64Authz.txt" with
  | JSONValue.str b64 =>
      match base64DecodeAscii b64 with
      | some plain =>
          let parts := plain.splitOn ":"
          if parts.headD "" = "gateway" ∧ parts.getD 1 "" ≠ "" then
            some (parts.getD 1 "")
          else none
      | none => none
  | _ => none

/-- `extractGatewayFromMetadataG3auto`: recover the `gateway` admin password
embedded in a metadata bundle, trying the `metadata.env` lines first and the
`base64Authz.txt` field second; `none` when neither yields it. -/
def extractGatewayFromMetadataG3auto (meta : JSONValue) : Option String :=
  match gatewayFromEnvLines meta with
  | some pwd => some pwd
  | none => gatewayFromBase64 meta

/-- First job whose `name` is `indexing` (optional-chained access, so a
non-object element is simply skipped). -/
def findIndexingJob : List Gen3Secrets.JSONValue → Option Gen3Secrets.JSONValue
  | [] => none
  | j :: rest =>
      match jsField j "name" with
      | Gen3Secrets.JSONValue.str s =>
          if s = "indexing" then some j else findIndexingJob rest
      | _ => findIndexingJob rest

/-- `extractSsjFromDispatcher`: from a dispatcher bundle, take the job named
`indexing` (or the first job), and return its `imageConfig.password` when it
is a truthy string. -/
def extractSsjFromDispatcher (ssj : JSONValue) : Option String :=
  match jsField ssj "JOBS" with
  | JSONValue.arr (j :: js) =>
      let job :=
        match findIndexingJob (j :: js) with
        | some jb => jb
        | none => j
      match jsField (jsField job "imageConfig") "password" with
      | JSONValue.str p => if p = "" then none else some p
      | _ => none
  | _ => none

/-! The secret-store gateway. -/

/-- `exists(name)`: a `DescribeSecret` call; `true` when the name is present
(a "not found" error is normalised to `false`, any other store failure is not
modelled: the store is assumed reachable). -/
def existsSecret (name : String) : SM Bool := fun s =>
  (Except.ok (findSecret s.store name).isSome,
   { s with trace := StoreOp.describe name :: s.trace })

/-- `getSecretJson(name)`: read and JSON-parse a secret; "not found"
propagates, and parsing the plaintext PEM payload fails. -/
def getSecretJson (name : String) : SM JSONValue := fun s =>
  let t := { s with trace := StoreOp.read name :: s.trace }
  match findSecret s.store name with
  | some (SecretValue.json v) => (Except.ok v, t)
  | some (SecretValue.plain _) => (Except.error "JSONParseError", t)
  | none => (Except.error "ResourceNotFoundException", t)

/-- `tryGetSecretJson(name)`: as `getSecretJson` but "not found" is
normalised to `none` instead of an error. -/
def tryGetSecretJson (name : String) : SM (Option JSONValue) := fun s =>
  let t := { s with trace := StoreOp.read name :: s.trace }
  match findSecret s.store name with
  | some (SecretValue.json v) => (Except.ok (some v), t)
  | some (SecretValue.plain _) => (Except.error "JSONParseError", t)
  | none => (Except.ok none, t)

/-- `createIfMissing(name, payload, kmsKeyId?, tags?)`: existence check, then
an unconditional create of the JSON payload and one batch tag call when tags
were supplied; `false` without any create when the name exists. -/
def createIfMissing (name : String) (payload : List (String × JSONValue))
    (kmsKeyId : Option String) (tags : List (String × String)) : SM Bool := fun s =>
  if (findSecret s.store name).isSome then
    (Except.ok false, { s with trace := StoreOp.describe name :: s.trace })
  else
    (Except.ok true,
     { s with
        store := (name, SecretValue.json (JSONValue.obj payload)) :: s.store,
        trace :=
          (if tags.isEmpty then [StoreOp.create name]
           else [StoreOp.tag name, StoreOp.create name]) ++
          StoreOp.describe name :: s.trace })

/-- `createPlainIfMissing(name, secretString, kmsKeyId?, tags?)`: same
contract with a raw (non-JSON) string payload. -/
def createPlainIfMissing (name : String) (secretString : String)
    (kmsKeyId : Option String) (tags : List (String × String)) : SM Bool := fun s =>
  if (findSecret s.store name).isSome then
    (Except.ok false, { s with trace := StoreOp.describe name :: s.trace })
  else
    (Except.ok true,
     { s with
        store := (name, SecretValue.plain secretString) :: s.store,
        trace :=
          (if tags.isEmpty then [StoreOp.create name]
           else [StoreOp.tag name, StoreOp.create name]) ++
          StoreOp.describe name :: s.trace })

/-! The random generator, abstracted to an oracle stream. -/

/-- Take the next element of the entropy stream. -/
def draw (ent : Nat → String) : SM String := fun s =>
  (Except.ok (ent s.ctr), { s with ctr := s.ctr + 1 })

/-- `randomAlnum(pwLen)`: an alphanumeric password from the secure source. -/
def randomAlnum (ent : Nat → String) : SM String := draw ent

/-- `randomBase64(lenBytes)`: base64-encoded secure random bytes. -/
def randomBase64 (ent : Nat → String) : SM String := draw ent

/-- `generateRsaKeyPairPem(2048).privateKeyPem`: the PEM-encoded private key
of a freshly generated RSA pair (the handler persists only the private key). -/
def generateRsaPrivateKeyPem (ent : Nat → String) : SM String := draw ent

/-! Invocation inputs.  `ResourceProperties` is destructured into a typed
record; JS `||` / `??` / truthiness defaulting on the optional fields is kept
explicit at each use site. -/

/-- Feature flags of the `create` mapping (JS truthiness already applied). -/
structure CreateFlags where
  metadataG3auto : Bool
  wtsG3auto : Bool
  pelicanserviceG3auto : Bool
  manifestserviceG3auto : Bool
  auditGen3auto : Bool
  ssjdispatcherCreds : Bool
  fenceJwtPrivateKey : Bool

/-- The `g3auto` grab-bag of optional bundle inputs; an absent `g3auto`
object is the record with every field `none`.  `manifestPfx` carries the
source's manifest prefix field. -/
structure G3Auto where
  hostname : Option String
  region : Option String
  wtsBaseUrl : Option String
  fenceBaseUrl : Option String
  oidcClientId : Option String
  oidcClientSecret : Option String
  pelicanBucketName : Option String
  pelicanAccessKeyId : Option String
  pelicanSecretAccessKey : Option String
  manifestBucketName : Option String
  manifestPfx : Option String
  auditSqsUrl : Option String
  ssjSqsUrl : Option String
  ssjIndexdUser : Option String
  ssjIndexdPassword : Option String
  ssjMetadataUser : Option String
  ssjMetadataPassword : Option String
  ssjDataPattern : Option String

/-- The destructured `ResourceProperties`.  The requested password length is
absorbed into the entropy oracle and therefore not carried. -/
structure HandlerProps where
  project : String
  envName : String
  services : List String
  masterSecretName : String
  kmsKeyId : Option String
  tags : List (String × String)
  dbHostOverride : Option String
  dbPortOverride : Option Int
  createFlags : CreateFlags
  g3auto : G3Auto
  indexdServiceUsers : List String
  indexdServiceStatic : List (String × JSONValue)

/-- A lifecycle event: the `RequestType` and the resource properties. -/
structure HandlerEvent where
  requestType : String
  props : HandlerProps

/-- The invocation result: the stable physical id and the list of secret
names newly created during the pass. -/
structure HandlerResult where
  physicalResourceId : String
  created : List String

/-- Derived secret name `<project>-<envName>-<suffix>`; every name the
handler produces goes through this function. -/
def secretName (project envName sfx : String) : String :=
  project ++ "-" ++ envName ++ "-" ++ sfx

/-- Values shared by all bundle builders within one pass: identifiers, the
encryption key id, the tag set and the stringified database coordinates. -/
structure Ctx where
  project : String
  envName : String
  kmsKeyId : Option String
  tags : List (String × String)
  hostS : String
  portS : String

/-- `sec?.password ?? sec?.Password ?? null`, then `typeof pwd === "string"
&& pwd ? pwd : null`: the password field of a fetched per-service credential,
accepted only when it is a truthy string. -/
def dbPasswordOfSecret (sec : Option JSONValue) : Option String :=
  let pwd :=
    match sec with
    | none => JSONValue.null
    | some v =>
        match jsField v "password" with
        | JSONValue.null => jsField v "Password"
        | p => p
  match pwd with
  | JSONValue.str s => if s = "" then none else some s
  | _ => none

/-- Truthiness of the in-pass password cache entry for a service. -/
def cacheTruthy (cache : List (String × String)) (svc : String) : Bool :=
  match lookupStr cache svc with
  | some pw => pw != ""
  | none => false

/-- `getDbPassword(svc)`: the per-service database password, from the in-pass
cache when truthy, else from the existing `<project>-<env>-<svc>` secret. -/
def getDbPassword (project envName : String) (cache : List (String × String))
    (svc : String) : SM (Option String) :=
  if cacheTruthy cache svc then pure (lookupStr cache svc)
  else do
    let sec ← tryGetSecretJson (secretName project envName svc)
    pure (dbPasswordOfSecret sec)

/-! The bundle builders, one per secret kind, in the order the driver runs
them. -/

/-- Step 1: one database credential per configured service; the password is
drawn before the existence check, and passwords of newly created secrets are
cached for reuse within the pass. -/
def perServiceCreds (ent : Nat → String) (c : Ctx) :
    List String → SM (List String × List (String × String))
  | [] => pure ([], [])
  | svc :: rest => do
      let nm := secretName c.project c.envName svc
      let pwd ← randomAlnum ent
      let payload := [("username", JSONValue.str svc),
                      ("password", JSONValue.str pwd),
                      ("host", JSONValue.str c.hostS),
                      ("port", JSONValue.str c.portS),
                      ("database", JSONValue.str svc)]
      let did ← createIfMissing nm payload c.kmsKeyId c.tags
      let restOut ← perServiceCreds ent c rest
      pure (if did then nm :: restOut.1 else restOut.1,
            if did then (svc, pwd) :: restOut.2 else restOut.2)

/-- `(await getDbPassword("metadata")) ?? randomAlnum(pwLen)`: the metadata
database password, reused from the pass cache or the existing per-service
secret, with a fresh draw only when neither yields one. -/
def metadataDbPasswordStep (ent : Nat → String) (c : Ctx)
    (cache : List (String × String)) : SM String := do
  let dbPw ← getDbPassword c.project c.envName cache "metadata"
  match dbPw with
  | some d => pure d
  | none => randomAlnum ent

/-- Step 2: the `metadata-g3auto` bundle.  The database password is the
per-service `metadata` password when `getDbPassword` yields one (in-pass
cache or existing secret), else a fresh draw; a fresh gateway admin password
is always drawn and cached for the service-token bundle. -/
def metadataG3autoBlock (ent : Nat → String) (c : Ctx) (flags : CreateFlags)
    (g : G3Auto) (cache : List (String × String)) : SM (List String × Option String) :=
  if flags.metadataG3auto then
    if optTruthy g.hostname then do
      let nm := secretName c.project c.envName "metadata-g3auto"
      let db_password ← metadataDbPasswordStep ent c cache
      let adminPwd ← randomAlnum ent
      let base64Authz := base64Encode ("gateway:" ++ adminPwd)
      let payload :=
        [("dbcreds.json", JSONValue.obj
           [("db_host", JSONValue.str c.hostS),
            ("db_username", JSONValue.str "metadata"),
            ("db_password", JSONValue.str db_password),
            ("db_database", JSONValue.str "metadata")]),
         ("metadata.env", JSONValue.arr
           [JSONValue.str "DEBUG=false",
            JSONValue.str ("DB_HOST=" ++ c.hostS),
            JSONValue.str "DB_USER=metadata",
            JSONValue.str ("DB_PASSWORD=" ++ db_password),
            JSONValue.str "DB_DATABASE=metadata",
            JSONValue.str ("ADMIN_LOGINS=gateway:" ++ adminPwd)]),
         ("base64Authz.txt", JSONValue.str base64Authz)]
      let did ← createIfMissing nm payload c.kmsKeyId c.tags
      pure (if did then [nm] else [], some adminPwd)
    else throwSM "metadata-g3auto requires g3auto.hostname"
  else pure ([], none)

/-- Step 3: the `wts-g3auto` identity-broker bundle, with base URLs defaulted
from the hostname, two fresh base64 key fields and placeholder client
credentials when none are supplied. -/
def wtsG3autoBlock (ent : Nat → String) (c : Ctx) (flags : CreateFlags)
    (g : G3Auto) : SM (List String) :=
  if flags.wtsG3auto then
    if optTruthy g.hostname then do
      let nm := secretName c.project c.envName "wts-g3auto"
      let hostnameS := jsNullish g.hostname ""
      let wtsBase := jsNullish g.wtsBaseUrl ("https://" ++ hostnameS ++ "/wts/")
      let fenceBase := jsNullish g.fenceBaseUrl ("https://" ++ hostnameS ++ "/user/")
      let oidcId := jsNullish g.oidcClientId "REPLACE_ME"
      let oidcSecret := jsNullish g.oidcClientSecret "REPLACE_ME"
      let ek ← randomBase64 ent
      let sk ← randomBase64 ent
      let payload :=
        [("appcreds.json", JSONValue.obj
           [("wts_base_url", JSONValue.str wtsBase),
            ("encryption_key", JSONValue.str ek),
            ("secret_key", JSONValue.str sk),
            ("fence_base_url", JSONValue.str fenceBase),
            ("oidc_client_id", JSONValue.str oidcId),
            ("oidc_client_secret", JSONValue.str oidcSecret),
            ("external_oidc", JSONValue.arr [])])]
      let did ← createIfMissing nm payload c.kmsKeyId c.tags
      pure (if did then [nm] else [])
    else throwSM "wts-g3auto requires g3auto.hostname"
  else pure []

/-- Step 4: the `pelicanservice-g3auto` bucket pointer; explicit access keys
are copied only when both are supplied. -/
def pelicanBlock (c : Ctx) (flags : CreateFlags) (g : G3Auto) : SM (List String) :=
  if flags.pelicanserviceG3auto then
    if optTruthy g.hostname && optTruthy g.pelicanBucketName then do
      let nm := secretName c.project c.envName "pelicanservice-g3auto"
      let base := [("manifest_bucket_name", JSONValue.str (jsNullish g.pelicanBucketName "")),
                   ("hostname", JSONValue.str (jsNullish g.hostname ""))]
      let payload :=
        if optTruthy g.pelicanAccessKeyId && optTruthy g.pelicanSecretAccessKey then
          base ++ [("aws_access_key_id", JSONValue.str (jsNullish g.pelicanAccessKeyId "")),
                   ("aws_secret_access_key", JSONValue.str (jsNullish g.pelicanSecretAccessKey ""))]
        else base
      let did ← createIfMissing nm payload c.kmsKeyId c.tags
      pure (if did then [nm] else [])
    else throwSM "pelicanservice-g3auto requires hostname & bucket"
  else pure []

/-- Step 5: the `manifestservice-g3auto` bucket pointer. -/
def manifestBlock (c : Ctx) (flags : CreateFlags) (g : G3Auto) : SM (List String) :=
  if flags.manifestserviceG3auto then
    if optTruthy g.hostname && optTruthy g.manifestBucketName then do
      let nm := secretName c.project c.envName "manifestservice-g3auto"
      let payload := [("manifest_bucket_name", JSONValue.str (jsNullish g.manifestBucketName "")),
                      ("hostname", JSONValue.str (jsNullish g.hostname "")),
                      ("prefix", JSONValue.str (jsNullish g.manifestPfx ""))]
      let did ← createIfMissing nm payload c.kmsKeyId c.tags
      pure (if did then [nm] else [])
    else throwSM "manifestservice-g3auto requires hostname & bucket"
  else pure []

/-- The audit configuration text, byte-identical for identical inputs. -/
def auditConfigYaml (sqsUrl region : String) : String :=
  "SERVER:\n  DEBUG: false\n  PULL_FROM_QUEUE: false\n  QUEUE_CONFIG:\n    type: aws_sqs\n    aws_sqs_config:\n      sqs_url: "
  ++ sqsUrl ++ "\n      region: " ++ region ++
  "\n  PULL_FREQUENCY_SECONDS: 300\n  AWS_CREDENTIALS: \x7b\x7d\nQUERY_TIMEBOX_MAX_DAYS: null\nQUERY_PAGE_SIZE: 1000\nQUERY_USERNAMES: true"

/-- Step 6: the audit bundle, named with the `-audit-g3auto` suffix, holding
the YAML text under `config.yaml`. -/
def auditBlock (c : Ctx) (flags : CreateFlags) (g : G3Auto) (region : String) :
    SM (List String) :=
  if flags.auditGen3auto then
    if optTruthy g.auditSqsUrl then do
      let nm := secretName c.project c.envName "audit-g3auto"
      let payload := [("config.yaml",
        JSONValue.str (auditConfigYaml (jsNullish g.auditSqsUrl "") region))]
      let did ← createIfMissing nm payload c.kmsKeyId c.tags
      pure (if did then [nm] else [])
    else throwSM "audit-gen3auto requires g3auto.auditSqsUrl"
  else pure []

/-- Step 7: the `ssjdispatcher-creds` job bundle.  The two passwords default
(via JS `||`) to the per-service database passwords read before the block,
and fall back to the literal `REPLACE_ME` placeholder. -/
def ssjBlock (c : Ctx) (flags : CreateFlags) (g : G3Auto) (region : String)
    (indexDbPwd metadataDbPwd : Option String) : SM (List String) :=
  if flags.ssjdispatcherCreds then
    if optTruthy g.ssjSqsUrl then do
      let nm := secretName c.project c.envName "ssjdispatcher-creds"
      let idxUser := jsOr g.ssjIndexdUser "ssj"
      let idxPwd := jsOr g.ssjIndexdPassword (jsOr indexDbPwd "REPLACE_ME")
      let mdsUser := jsOr g.ssjMetadataUser "gateway"
      let mdsPwd := jsOr g.ssjMetadataPassword (jsOr metadataDbPwd "REPLACE_ME")
      let payload :=
        [("AWS", JSONValue.obj [("region", JSONValue.str region)]),
         ("SQS", JSONValue.obj [("url", JSONValue.str (jsNullish g.ssjSqsUrl ""))]),
         ("JOBS", JSONValue.arr
           [JSONValue.obj
             [("name", JSONValue.str "indexing"),
              ("pattern", JSONValue.str (jsOr g.ssjDataPattern "")),
              ("imageConfig", JSONValue.obj
                [("url", JSONValue.str "http://indexd-service/index"),
                 ("username", JSONValue.str idxUser),
                 ("password", JSONValue.str idxPwd),
                 ("metadataService", JSONValue.obj
                   [("url", JSONValue.str "http://revproxy-service/mds"),
                    ("username", JSONValue.str mdsUser),
                    ("password", JSONValue.str mdsPwd)])]),
              ("RequestCPU", JSONValue.str "500m"),
              ("RequestMem", JSONValue.str "0.5Gi"),
              ("ServiceAccount", JSONValue.str "ssjdispatcher-service-account")]])]
      let did ← createIfMissing nm payload c.kmsKeyId c.tags
      pure (if did then [nm] else [])
    else throwSM "ssjdispatcher-creds requires g3auto.ssjSqsUrl"
  else pure []

/-- Replace the value of a key, or append the binding, preserving insertion
order (JS object assignment). -/
def setTok (l : List (String × String)) (k v : String) : List (String × String) :=
  if (lookupStr l k).isSome then
    l.map (fun kv => if kv.1 = k then (k, v) else kv)
  else l ++ [(k, v)]

/-- Truthiness of `tokens[k]` (missing and `""` are falsy). -/
def tokTruthy (l : List (String × String)) (k : String) : Bool :=
  match lookupStr l k with
  | some v => v != ""
  | none => false

/-- Seed tokens from the explicit static overrides: only entries whose value
is a truthy string are copied. -/
def staticTokens (stat : List (String × JSONValue)) : List (String × String) :=
  stat.foldl
    (fun acc kv =>
      match kv.2 with
      | JSONValue.str s => if s = "" then acc else setTok acc kv.1 s
      | _ => acc) []

/-- `if (!tokens["fence"]) { const f = await getDbPassword("fence"); if (f)
tokens["fence"] = f; }`. -/
def fenceTokenStep (c : Ctx) (cache : List (String × String))
    (t0 : List (String × String)) : SM (List (String × String)) :=
  if tokTruthy t0 "fence" then pure t0
  else do
    let f ← getDbPassword c.project c.envName cache "fence"
    pure (match f with
      | some fv => setTok t0 "fence" fv
      | none => t0)

/-- The analogous `sheepdog` token resolution from its database password. -/
def sheepdogTokenStep (c : Ctx) (cache : List (String × String))
    (t1 : List (String × String)) : SM (List (String × String)) :=
  if tokTruthy t1 "sheepdog" then pure t1
  else do
    let sd ← getDbPassword c.project c.envName cache "sheepdog"
    pure (match sd with
      | some sv => setTok t1 "sheepdog" sv
      | none => t1)

/-- The `gateway` token resolution: the admin password generated this pass
when truthy, else an extraction from the already-created metadata bundle. -/
def gatewayTokenStep (c : Ctx) (gatewayGen : Option String)
    (t3 : List (String × String)) : SM (List (String × String)) :=
  if tokTruthy t3 "gateway" then pure t3
  else
    if optTruthy gatewayGen then pure (setTok t3 "gateway" (jsNullish gatewayGen ""))
    else do
      let meta ← tryGetSecretJson (secretName c.project c.envName "metadata-g3auto")
      let gw :=
        match meta with
        | some m => if jsTruthy m then extractGatewayFromMetadataG3auto m else none
        | none => none
      pure (match gw with
        | some gv => if gv = "" then t3 else setTok t3 "gateway" gv
        | none => t3)

/-- Step 8 (always attempted): the shared `indexd-service` token bundle.
Resolution order per username: static override, per-service database
password (`fence`, `sheepdog`), the pre-read index password (`ssj`), the
gateway admin password generated this pass or extracted from the existing
metadata bundle (`gateway`), then the `REPLACE_ME` placeholder. -/
def indexdServiceBlock (c : Ctx) (cache : List (String × String))
    (stat : List (String × JSONValue)) (users : List String)
    (indexDbPwd : Option String) (gatewayGen : Option String) : SM (List String) := do
  let nm := secretName c.project c.envName "indexd-service"
  let t1 ← fenceTokenStep c cache (staticTokens stat)
  let t2 ← sheepdogTokenStep c cache t1
  let t3 := if tokTruthy t2 "ssj" then t2 else setTok t2 "ssj" (jsOr indexDbPwd "REPLACE_ME")
  let t4 ← gatewayTokenStep c gatewayGen t3
  let req := if users.isEmpty then ["sheepdog", "fence", "ssj", "gateway"] else users
  let t5 := req.foldl (fun acc u => if tokTruthy acc u then acc else setTok acc u "REPLACE_ME") t4
  let did ← createIfMissing nm (t5.map (fun kv => (kv.1, JSONValue.str kv.2))) c.kmsKeyId c.tags
  pure (if did then [nm] else [])

/-- Step 9: the fence JWT signing key, persisted as the raw PEM private key
text. -/
def fenceJwtBlock (ent : Nat → String) (c : Ctx) (flags : CreateFlags) :
    SM (List String) :=
  if flags.fenceJwtPrivateKey then do
    let nm := secretName c.project c.envName "fence-jwt-key"
    let pem ← generateRsaPrivateKeyPem ent
    let did ← createPlainIfMissing nm pem c.kmsKeyId c.tags
    pure (if did then [nm] else [])
  else pure []

/-- The override coordinates as JS values (`null` when absent). -/
def overrideCoords (p : HandlerProps) : JSONValue × JSONValue :=
  (match p.dbHostOverride with
   | some h => JSONValue.str h
   | none => JSONValue.null,
   match p.dbPortOverride with
   | some n => JSONValue.num n
   | none => JSONValue.null)

/-- When either coordinate is falsy, read the master secret and fill the
nullish ones from its `host`/`port` fields. -/
def fetchDbCoords (p : HandlerProps) : SM (JSONValue × JSONValue) :=
  let h0 := (overrideCoords p).1
  let q0 := (overrideCoords p).2
  if jsTruthy h0 && jsTruthy q0 then pure (h0, q0)
  else do
    let master ← getSecretJson p.masterSecretName
    pure ((if jsIsNullish h0 then jsField master "host" else h0),
          (if jsIsNullish q0 then jsField master "port" else q0))

/-- Resolve database host and port: overrides win; otherwise the master
secret is read and fills the nullish coordinates; a falsy final host or port
is fatal. -/
def resolveDb (p : HandlerProps) : SM (JSONValue × JSONValue) := do
  let hq ← fetchDbCoords p
  if jsTruthy hq.1 && jsTruthy hq.2 then pure hq
  else throwSM "Missing DB host/port (master secret or overrides)"

/-- The pass context assembled from the inputs and resolved coordinates. -/
def mkCtx (p : HandlerProps) (hq : JSONValue × JSONValue) : Ctx :=
  { project := p.project, envName := p.envName, kmsKeyId := p.kmsKeyId,
    tags := p.tags, hostS := jsString hq.1, portS := jsString hq.2 }

/-- `g3auto?.region || process.env.AWS_REGION || "ap-southeast-2"`. -/
def regionOf (g : G3Auto) (regionEnv : Option String) : String :=
  jsOr g.region (jsOr regionEnv "ap-southeast-2")

/-- The reconciliation driver.  A `Delete` event returns the stable physical
id immediately; otherwise the database coordinates are resolved and the
bundle builders run in their fixed dependency order, accumulating the names
of newly created secrets. -/
def handler (ent : Nat → String) (regionEnv : Option String) (ev : HandlerEvent) :
    SM HandlerResult :=
  let p := ev.props
  if ev.requestType = "Delete" then
    pure { physicalResourceId := "gen3-secrets-" ++ p.project ++ "-" ++ p.envName,
           created := [] }
  else do
    let hq ← resolveDb p
    let c : Ctx := mkCtx p hq
    let region := regionOf p.g3auto regionEnv
    let sc ← perServiceCreds ent c p.services
    let md ← metadataG3autoBlock ent c p.createFlags p.g3auto sc.2
    let wts ← wtsG3autoBlock ent c p.createFlags p.g3auto
    let pel ← pelicanBlock c p.createFlags p.g3auto
    let man ← manifestBlock c p.createFlags p.g3auto
    let aud ← auditBlock c p.createFlags p.g3auto region
    let indexDbPwd ← getDbPassword p.project p.envName sc.2 "index"
    let metadataDbPwd ← getDbPassword p.project p.envName sc.2 "metadata"
    let ssj ← ssjBlock c p.createFlags p.g3auto region indexDbPwd metadataDbPwd
    let idx ← indexdServiceBlock c sc.2 p.indexdServiceStatic p.indexdServiceUsers
                indexDbPwd md.2
    let jwt ← fenceJwtBlock ent c p.createFlags
    pure { physicalResourceId := "gen3-secrets-" ++ p.project ++ "-" ++ p.envName,
           created := sc.1 ++ md.1 ++ wts ++ pel ++ man ++ aud ++ ssj ++ idx ++ jwt }

/-! Run lemmas for the handler monad. -/

theorem run_pure {α : Type} (a : α) (s : SMState) :
    (pure a : SM α) s = (Except.ok a, s) := rfl

theorem run_bind {α β : Type} (m : SM α) (f : α → SM β) (s : SMState) :
    (m >>= f) s =
      match m s with
      | (Except.ok a, t) => f a t
      | (Except.error e, t) => (Except.error e, t) := rfl

theorem bind_eq_ok {α β : Type} {m : SM α} {f : α → SM β} {s : SMState}
    {r : β} {t : SMState} (h : (m >>= f) s = (Except.ok r, t)) :
    ∃ a u, m s = (Except.ok a, u) ∧ f a u = (Except.ok r, t) := by
  rw [run_bind] at h
  rcases hm : m s with ⟨e, u⟩
  rw [hm] at h
  cases e with
  | ok a => exact ⟨a, u, rfl, h⟩
  | error e => simp at h

/-! Store-extension invariants: a run never changes the value of a present
name, and every plaintext secret it creates at a previously absent name is in
an explicit allow-list (only the PEM signing key is ever written plain). -/

/-- Every binding present before is present, with the same value, after. -/
def StoreLe (a b : List (String × SecretValue)) : Prop :=
  ∀ n v, findSecret a n = some v → findSecret b n = some v

/-- Any plaintext value at a previously absent name is one of `pl`. -/
def PlainFreshOnly (pl : List String) (a b : List (String × SecretValue)) : Prop :=
  ∀ n str, findSecret a n = none →
    findSecret b n = some (SecretValue.plain str) → n ∈ pl

/-- The name `n` is not stored as plaintext (it is JSON or absent). -/
def JsonOrAbsent (st : List (String × SecretValue)) (n : String) : Prop :=
  ∀ str, findSecret st n ≠ some (SecretValue.plain str)

/-- The extension invariant of a computation: however it runs (also into an
error), the store only grows by fresh names, plaintext only at `pl`. -/
def Ext (pl : List String) {α : Type} (m : SM α) : Prop :=
  ∀ s r t, m s = (r, t) →
    StoreLe s.store t.store ∧ PlainFreshOnly pl s.store t.store

theorem storeLe_refl (a : List (String × SecretValue)) : StoreLe a a :=
  fun _ _ h => h

theorem storeLe_trans {a b c : List (String × SecretValue)}
    (h₁ : StoreLe a b) (h₂ : StoreLe b c) : StoreLe a c :=
  fun n v h => h₂ n v (h₁ n v h)

theorem plainFreshOnly_refl (pl : List String) (a : List (String × SecretValue)) :
    PlainFreshOnly pl a a := by
  intro n str h₁ h₂
  rw [h₁] at h₂
  cases h₂

theorem plainFreshOnly_comp {pl : List String} {a b c : List (String × SecretValue)}
    (hab : PlainFreshOnly pl a b) (hbcLe : StoreLe b c)
    (hbc : PlainFreshOnly pl b c) : PlainFreshOnly pl a c := by
  intro n str ha hc
  cases hb : findSecret b n with
  | none => exact hbc n str hb hc
  | some v =>
      have := hbcLe n v hb
      rw [this] at hc
      cases hc
      exact hab n str ha hb

theorem jsonOrAbsent_lift {pl : List String} {a b : List (String × SecretValue)}
    {n : String} (hle : StoreLe a b) (hpf : PlainFreshOnly pl a b)
    (hn : n ∉ pl) (h : JsonOrAbsent a n) : JsonOrAbsent b n := by
  intro str hb
  cases ha : findSecret a n with
  | none => exact hn (hpf n str ha hb)
  | some v =>
      have := hle n v ha
      rw [this] at hb
      cases hb
      exact h str ha

theorem ext_mono {pl pl' : List String} {α : Type} {m : SM α}
    (hsub : ∀ n, n ∈ pl → n ∈ pl') (h : Ext pl m) : Ext pl' m := by
  intro s r t hrun
  refine ⟨(h s r t hrun).1, fun n str h₁ h₂ => hsub n ((h s r t hrun).2 n str h₁ h₂)⟩

theorem ext_pure {pl : List String} {α : Type} (a : α) : Ext pl (pure a) := by
  intro s r t h
  rw [run_pure] at h
  cases h
  exact ⟨storeLe_refl _, plainFreshOnly_refl _ _⟩

theorem ext_throw {pl : List String} {α : Type} (e : String) :
    Ext pl (throwSM (α := α) e) := by
  intro s r t h
  cases h
  exact ⟨storeLe_refl _, plainFreshOnly_refl _ _⟩

theorem ext_bind {pl : List String} {α β : Type} {m : SM α} {f : α → SM β}
    (hm : Ext pl m) (hf : ∀ a, Ext pl (f a)) : Ext pl (m >>= f) := by
  intro s r t h
  rw [run_bind] at h
  rcases hms : m s with ⟨e, u⟩
  rw [hms] at h
  cases e with
  | ok a =>
      have h₁ := hm s (Except.ok a) u hms
      have h₂ := hf a u r t h
      exact ⟨storeLe_trans h₁.1 h₂.1, plainFreshOnly_comp h₁.2 h₂.1 h₂.2⟩
  | error e =>
      cases h
      exact hm s (Except.error e) t hms

/-! Extension lemmas for the primitives. -/

theorem findSecret_cons_ne {st : List (String × SecretValue)} {name n : String}
    {v : SecretValue} (h : name ≠ n) :
    findSecret ((name, v) :: st) n = findSecret st n := by
  simp [findSecret, h]

theorem findSecret_cons_self (st : List (String × SecretValue)) (name : String)
    (v : SecretValue) : findSecret ((name, v) :: st) name = some v := by
  simp [findSecret]

theorem ext_existsSecret {pl : List String} (name : String) :
    Ext pl (existsSecret name) := by
  intro s r t h
  cases h
  exact ⟨storeLe_refl _, plainFreshOnly_refl _ _⟩

theorem ext_getSecretJson {pl : List String} (name : String) :
    Ext pl (getSecretJson name) := by
  intro s r t h
  unfold getSecretJson at h
  rcases hfs : findSecret s.store name with _ | v
  · rw [hfs] at h
    cases h
    exact ⟨storeLe_refl _, plainFreshOnly_refl _ _⟩
  · cases v <;> rw [hfs] at h <;> cases h <;>
      exact ⟨storeLe_refl _, plainFreshOnly_refl _ _⟩

theorem ext_tryGetSecretJson {pl : List String} (name : String) :
    Ext pl (tryGetSecretJson name) := by
  intro s r t h
  unfold tryGetSecretJson at h
  rcases hfs : findSecret s.store name with _ | v
  · rw [hfs] at h
    cases h
    exact ⟨storeLe_refl _, plainFreshOnly_refl _ _⟩
  · cases v <;> rw [hfs] at h <;> cases h <;>
      exact ⟨storeLe_refl _, plainFreshOnly_refl _ _⟩

theorem ext_draw {pl : List String} (ent : Nat → String) : Ext pl (draw ent) := by
  intro s r t h
  cases h
  exact ⟨storeLe_refl _, plainFreshOnly_refl _ _⟩

theorem ext_createIfMissing {pl : List String} (name : String)
    (payload : List (String × JSONValue)) (kmsKeyId : Option String)
    (tags : List (String × String)) :
    Ext pl (createIfMissing name payload kmsKeyId tags) := by
  intro s r t h
  unfold createIfMissing at h
  by_cases hex : (findSecret s.store name).isSome
  · rw [if_pos hex] at h
    cases h
    exact ⟨storeLe_refl _, plainFreshOnly_refl _ _⟩
  · rw [if_neg hex] at h
    cases h
    constructor
    · intro n v hv
      have hne : name ≠ n := by
        intro he
        rw [he] at hex
        rw [hv] at hex
        simp at hex
      rw [findSecret_cons_ne hne]
      exact hv
    · intro n str h₁ h₂
      by_cases hne : name = n
      · subst hne
        rw [findSecret_cons_self] at h₂
        cases h₂
      · rw [findSecret_cons_ne hne] at h₂
        rw [h₁] at h₂
        cases h₂

theorem ext_createPlainIfMissing (name : String) (secretString : String)
    (kmsKeyId : Option String) (tags : List (String × String)) :
    Ext [name] (createPlainIfMissing name secretString kmsKeyId tags) := by
  intro s r t h
  unfold createPlainIfMissing at h
  by_cases hex : (findSecret s.store name).isSome
  · rw [if_pos hex] at h
    cases h
    exact ⟨storeLe_refl _, plainFreshOnly_refl _ _⟩
  · rw [if_neg hex] at h
    cases h
    constructor
    · intro n v hv
      have hne : name ≠ n := by
        intro he
        rw [he] at hex
        rw [hv] at hex
        simp at hex
      rw [findSecret_cons_ne hne]
      exact hv
    · intro n str h₁ h₂
      by_cases hne : name = n
      · subst hne
        simp
      · rw [findSecret_cons_ne hne] at h₂
        rw [h₁] at h₂
        cases h₂

theorem ext_getDbPassword {pl : List String} (project envName : String)
    (cache : List (String × String)) (svc : String) :
    Ext pl (getDbPassword project envName cache svc) := by
  unfold getDbPassword
  by_cases hct : cacheTruthy cache svc
  · rw [if_pos hct]
    exact ext_pure _
  · rw [if_neg hct]
    exact ext_bind (ext_tryGetSecretJson _) (fun a => ext_pure _)

/-! Extension lemmas for the bundle builders and the driver. -/

theorem ext_perServiceCreds {pl : List String} (ent : Nat → String) (c : Ctx)
    (svcs : List String) : Ext pl (perServiceCreds ent c svcs) := by
  induction svcs with
  | nil =>
      unfold perServiceCreds
      exact ext_pure _
  | cons svc rest ih =>
      unfold perServiceCreds
      exact ext_bind (ext_draw ent) (fun pwd =>
        ext_bind (ext_createIfMissing _ _ _ _) (fun did =>
          ext_bind ih (fun out => ext_pure _)))

theorem ext_metadataDbPasswordStep {pl : List String} (ent : Nat → String)
    (c : Ctx) (cache : List (String × String)) :
    Ext pl (metadataDbPasswordStep ent c cache) := by
  unfold metadataDbPasswordStep
  refine ext_bind (ext_getDbPassword _ _ _ _) (fun dbPw => ?_)
  cases dbPw with
  | some d => exact ext_pure _
  | none => exact ext_draw ent

theorem ext_metadataG3autoBlock {pl : List String} (ent : Nat → String) (c : Ctx)
    (flags : CreateFlags) (g : G3Auto) (cache : List (String × String)) :
    Ext pl (metadataG3autoBlock ent c flags g cache) := by
  unfold metadataG3autoBlock
  split
  · split
    · exact ext_bind (ext_metadataDbPasswordStep ent c cache) (fun db_password =>
        ext_bind (ext_draw ent) (fun adminPwd =>
          ext_bind (ext_createIfMissing _ _ _ _) (fun did => ext_pure _)))
    · exact ext_throw _
  · exact ext_pure _

theorem ext_wtsG3autoBlock {pl : List String} (ent : Nat → String) (c : Ctx)
    (flags : CreateFlags) (g : G3Auto) : Ext pl (wtsG3autoBlock ent c flags g) := by
  unfold wtsG3autoBlock
  split
  · split
    · exact ext_bind (ext_draw ent) (fun ek =>
        ext_bind (ext_draw ent) (fun sk =>
          ext_bind (ext_createIfMissing _ _ _ _) (fun did => ext_pure _)))
    · exact ext_throw _
  · exact ext_pure _

theorem ext_pelicanBlock {pl : List String} (c : Ctx) (flags : CreateFlags)
    (g : G3Auto) : Ext pl (pelicanBlock c flags g) := by
  unfold pelicanBlock
  split
  · split
    · exact ext_bind (ext_createIfMissing _ _ _ _) (fun did => ext_pure _)
    · exact ext_throw _
  · exact ext_pure _

theorem ext_manifestBlock {pl : List String} (c : Ctx) (flags : CreateFlags)
    (g : G3Auto) : Ext pl (manifestBlock c flags g) := by
  unfold manifestBlock
  split
  · split
    · exact ext_bind (ext_createIfMissing _ _ _ _) (fun did => ext_pure _)
    · exact ext_throw _
  · exact ext_pure _

theorem ext_auditBlock {pl : List String} (c : Ctx) (flags : CreateFlags)
    (g : G3Auto) (region : String) : Ext pl (auditBlock c flags g region) := by
  unfold auditBlock
  split
  · split
    · exact ext_bind (ext_createIfMissing _ _ _ _) (fun did => ext_pure _)
    · exact ext_throw _
  · exact ext_pure _

theorem ext_ssjBlock {pl : List String} (c : Ctx) (flags : CreateFlags)
    (g : G3Auto) (region : String) (indexDbPwd metadataDbPwd : Option String) :
    Ext pl (ssjBlock c flags g region indexDbPwd metadataDbPwd) := by
  unfold ssjBlock
  split
  · split
    · exact ext_bind (ext_createIfMissing _ _ _ _) (fun did => ext_pure _)
    · exact ext_throw _
  · exact ext_pure _

theorem ext_fenceTokenStep {pl : List String} (c : Ctx)
    (cache : List (String × String)) (t0 : List (String × String)) :
    Ext pl (fenceTokenStep c cache t0) := by
  unfold fenceTokenStep
  split
  · exact ext_pure _
  · exact ext_bind (ext_getDbPassword _ _ _ _) (fun f => ext_pure _)

theorem ext_sheepdogTokenStep {pl : List String} (c : Ctx)
    (cache : List (String × String)) (t1 : List (String × String)) :
    Ext pl (sheepdogTokenStep c cache t1) := by
  unfold sheepdogTokenStep
  split
  · exact ext_pure _
  · exact ext_bind (ext_getDbPassword _ _ _ _) (fun sd => ext_pure _)

theorem ext_gatewayTokenStep {pl : List String} (c : Ctx)
    (gatewayGen : Option String) (t3 : List (String × String)) :
    Ext pl (gatewayTokenStep c gatewayGen t3) := by
  unfold gatewayTokenStep
  split
  · exact ext_pure _
  · split
    · exact ext_pure _
    · exact ext_bind (ext_tryGetSecretJson _) (fun meta => ext_pure _)

theorem ext_indexdServiceBlock {pl : List String} (c : Ctx)
    (cache : List (String × String)) (stat : List (String × JSONValue))
    (users : List String) (indexDbPwd gatewayGen : Option String) :
    Ext pl (indexdServiceBlock c cache stat users indexDbPwd gatewayGen) := by
  unfold indexdServiceBlock
  exact ext_bind (ext_fenceTokenStep _ _ _) (fun t1 =>
    ext_bind (ext_sheepdogTokenStep _ _ _) (fun t2 =>
      ext_bind (ext_gatewayTokenStep _ _ _) (fun t4 =>
        ext_bind (ext_createIfMissing _ _ _ _) (fun did => ext_pure _))))

theorem ext_fenceJwtBlock (ent : Nat → String) (c : Ctx) (flags : CreateFlags) :
    Ext [secretName c.project c.envName "fence-jwt-key"]
      (fenceJwtBlock ent c flags) := by
  unfold fenceJwtBlock
  split
  · exact ext_bind (ext_draw ent) (fun pem =>
      ext_bind (ext_createPlainIfMissing _ _ _ _) (fun did => ext_pure _))
  · exact ext_pure _

theorem ext_fetchDbCoords {pl : List String} (p : HandlerProps) :
    Ext pl (fetchDbCoords p) := by
  unfold fetchDbCoords
  dsimp only
  split
  · exact ext_pure _
  · exact ext_bind (ext_getSecretJson _) (fun master => ext_pure _)

theorem ext_resolveDb {pl : List String} (p : HandlerProps) :
    Ext pl (resolveDb p) := by
  unfold resolveDb
  refine ext_bind (ext_fetchDbCoords p) (fun hq => ?_)
  split
  · exact ext_pure _
  · exact ext_throw _

theorem ext_handler (ent : Nat → String) (regionEnv : Option String)
    (ev : HandlerEvent) :
    Ext [secretName ev.props.project ev.props.envName "fence-jwt-key"]
      (handler ent regionEnv ev) := by
  unfold handler
  split
  · exact ext_pure _
  · refine ext_bind (ext_resolveDb _) (fun hq => ?_)
    refine ext_bind (ext_perServiceCreds _ _ _) (fun sc => ?_)
    refine ext_bind (ext_metadataG3autoBlock _ _ _ _ _) (fun md => ?_)
    refine ext_bind (ext_wtsG3autoBlock _ _ _ _) (fun wts => ?_)
    refine ext_bind (ext_pelicanBlock _ _ _) (fun pel => ?_)
    refine ext_bind (ext_manifestBlock _ _ _) (fun man => ?_)
    refine ext_bind (ext_auditBlock _ _ _ _) (fun aud => ?_)
    refine ext_bind (ext_getDbPassword _ _ _ _) (fun indexDbPwd => ?_)
    refine ext_bind (ext_getDbPassword _ _ _ _) (fun metadataDbPwd => ?_)
    refine ext_bind (ext_ssjBlock _ _ _ _ _ _) (fun ssj => ?_)
    refine ext_bind (ext_indexdServiceBlock _ _ _ _ _ _) (fun idx => ?_)
    exact ext_bind (ext_fenceJwtBlock _ _ _) (fun jwt => ext_pure _)

/-! Concrete fixtures used by witnesses and counterexamples. -/

/-- A deterministic entropy stream for concrete runs. -/
def entW : Nat → String := fun n => "PW" ++ toString n

/-- A constant entropy stream, used to tell generated from reused values. -/
def entF : Nat → String := fun _ => "FRESH"

/-- All feature flags off. -/
def flagsNone : CreateFlags :=
  { metadataG3auto := false, wtsG3auto := false, pelicanserviceG3auto := false,
    manifestserviceG3auto := false, auditGen3auto := false,
    ssjdispatcherCreds := false, fenceJwtPrivateKey := false }

/-- An empty `g3auto` input object. -/
def g3autoEmpty : G3Auto :=
  { hostname := none, region := none, wtsBaseUrl := none, fenceBaseUrl := none,
    oidcClientId := none, oidcClientSecret := none, pelicanBucketName := none,
    pelicanAccessKeyId := none, pelicanSecretAccessKey := none,
    manifestBucketName := none, manifestPfx := none, auditSqsUrl := none,
    ssjSqsUrl := none, ssjIndexdUser := none, ssjIndexdPassword := none,
    ssjMetadataUser := none, ssjMetadataPassword := none, ssjDataPattern := none }

/-- The master coordinate payload `{host: "db.local", port: 5432}`. -/
def masterJson : JSONValue :=
  JSONValue.obj [("host", JSONValue.str "db.local"), ("port", JSONValue.num 5432)]

/-- The spec's concrete scenario inputs: `project="omix3"`, `envName="test"`,
`services=["index","fence"]`, all optional bundles disabled. -/
def propsW : HandlerProps :=
  { project := "omix3", envName := "test", services := ["index", "fence"],
    masterSecretName := "master", kmsKeyId := none, tags := [],
    dbHostOverride := none, dbPortOverride := none,
    createFlags := flagsNone, g3auto := g3autoEmpty,
    indexdServiceUsers := [], indexdServiceStatic := [] }

/-- A create-lifecycle event for the scenario inputs. -/
def evW : HandlerEvent := { requestType := "Create", props := propsW }

/-- A delete-lifecycle event for the scenario inputs. -/
def evDel : HandlerEvent := { requestType := "Delete", props := propsW }

/-- Initial store holding only the master coordinate secret. -/
def stW : SMState :=
  { store := [("master", SecretValue.json masterJson)], trace := [], ctr := 0 }

/-! ### C1: the handler never overwrites or deletes an existing secret -/

/-- C1: for every secret name present in the store with payload `P`,
invoking the reconciliation handler with any inputs leaves the stored
payload for that name exactly `P` (so the handler never updates or deletes
an existing record, whether the run succeeds or throws), and
`createIfMissing` on an existing name returns `false` after the existence
check alone, issuing no create, tag, or store mutation. -/
theorem never_overwrite :
    (∀ ent regionEnv ev s r t name P,
        handler ent regionEnv ev s = (r, t) →
        findSecret s.store name = some P →
        findSecret t.store name = some P)
    ∧ (∀ name payload kmsKeyId tags s,
        (findSecret s.store name).isSome →
        createIfMissing name payload kmsKeyId tags s =
          (Except.ok false, { s with trace := StoreOp.describe name :: s.trace })) := by
  constructor
  · intro ent regionEnv ev s r t name P hrun hfind
    exact ((ext_handler ent regionEnv ev) s r t hrun).1 name P hfind
  · intro name payload kmsKeyId tags s hex
    unfold createIfMissing
    rw [if_pos hex]

/-- Witness for C1 at concrete inputs: the master secret's payload survives
a full reconciliation pass, and `createIfMissing` on the existing name
reports `false` with only a describe call traced. -/
theorem never_overwrite_witness :
    findSecret ((handler entW none evW stW).2).store "master" =
      some (SecretValue.json masterJson)
    ∧ createIfMissing "master" [] none [] stW =
        (Except.ok false, { stW with trace := [StoreOp.describe "master"] }) :=
  ⟨never_overwrite.1 entW none evW stW (handler entW none evW stW).1
      (handler entW none evW stW).2 "master" (SecretValue.json masterJson) rfl rfl,
   never_overwrite.2 "master" [] none [] stW rfl⟩

/-! ### C8: a Delete event is a complete no-op -/

/-- C8: on a `Delete` lifecycle event the handler returns the stable
physical resource id `gen3-secrets-<project>-<envName>` immediately and the
state is untouched — in particular the operation trace is unchanged, so no
create, tag, or read was issued against the store, and nothing was deleted. -/
theorem delete_is_noop :
    ∀ ent regionEnv ev s, ev.requestType = "Delete" →
      handler ent regionEnv ev s =
        (Except.ok
          { physicalResourceId :=
              "gen3-secrets-" ++ ev.props.project ++ "-" ++ ev.props.envName,
            created := [] }, s) := by
  intro ent regionEnv ev s h
  unfold handler
  rw [if_pos h]
  rfl

/-- Witness for C8: a concrete delete event returns the stable id with the
state (store and trace) unchanged. -/
theorem delete_is_noop_witness :
    handler entW none evDel stW =
      (Except.ok { physicalResourceId := "gen3-secrets-omix3-test", created := [] },
       stW) :=
  delete_is_noop entW none evDel stW rfl

/-! ### C3: the check-then-create race is not caught

`createIfMissing` issues `CreateSecretCommand` with no `try`/`catch`; the
raced form below runs the existence check against the store as seen at check
time and the create against the store as seen at create time (a concurrent
pass may have created the name in between), exactly as the source sequence
behaves. -/

/-- The check-then-create sequence of `createIfMissing` under a concurrent
writer: the existence check sees `sCheck`, the create call runs against
`sCreate`; the source has no error handling around the create, so an
already-exists failure propagates. -/
def createIfMissingRaced (name : String) (payload : List (String × JSONValue))
    (sCheck sCreate : List (String × SecretValue)) :
    Except String (Bool × List (String × SecretValue)) :=
  if (findSecret sCheck name).isSome then Except.ok (false, sCreate)
  else if (findSecret sCreate name).isSome then
    Except.error "ResourceExistsException"
  else Except.ok (true, (name, SecretValue.json (JSONValue.obj payload)) :: sCreate)

/-- The same sequence for `createPlainIfMissing`. -/
def createPlainIfMissingRaced (name : String) (secretString : String)
    (sCheck sCreate : List (String × SecretValue)) :
    Except String (Bool × List (String × SecretValue)) :=
  if (findSecret sCheck name).isSome then Except.ok (false, sCreate)
  else if (findSecret sCreate name).isSome then
    Except.error "ResourceExistsException"
  else Except.ok (true, (name, SecretValue.plain secretString) :: sCreate)

/-- Counterexample to C3: when the existence check reports absent and the
create then hits a name created concurrently, both operations propagate the
already-exists error instead of returning `created = false`. -/
theorem race_not_caught_counterexample :
    createIfMissingRaced "n" [] []
        [("n", SecretValue.json (JSONValue.obj []))] =
      Except.error "ResourceExistsException"
    ∧ createPlainIfMissingRaced "n" "pem" []
        [("n", SecretValue.plain "other")] =
      Except.error "ResourceExistsException" :=
  ⟨rfl, rfl⟩

/-- C3 amended: `createIfMissing` (and `createPlainIfMissing`) returns
`created = false` only when its own existence check reports present; when
the check reports absent it issues the create unconditionally, so a
concurrent creation of the same name between check and create surfaces as a
propagated already-exists error, and only a name absent at both points is
created. -/
theorem race_behaviour :
    ∀ name payload pem sCheck sCreate,
      ((findSecret sCheck name).isSome →
        createIfMissingRaced name payload sCheck sCreate = Except.ok (false, sCreate)
        ∧ createPlainIfMissingRaced name pem sCheck sCreate =
            Except.ok (false, sCreate))
      ∧ ((findSecret sCheck name).isSome = false →
          (findSecret sCreate name).isSome = true →
          createIfMissingRaced name payload sCheck sCreate =
            Except.error "ResourceExistsException"
          ∧ createPlainIfMissingRaced name pem sCheck sCreate =
            Except.error "ResourceExistsException")
      ∧ ((findSecret sCheck name).isSome = false →
          (findSecret sCreate name).isSome = false →
          createIfMissingRaced name payload sCheck sCreate =
            Except.ok (true,
              (name, SecretValue.json (JSONValue.obj payload)) :: sCreate)) := by
  intro name payload pem sCheck sCreate
  refine ⟨fun h => ?_, fun h₁ h₂ => ?_, fun h₁ h₂ => ?_⟩
  · constructor <;> simp [createIfMissingRaced, createPlainIfMissingRaced, h]
  · constructor <;> simp [createIfMissingRaced, createPlainIfMissingRaced, h₁, h₂]
  · simp [createIfMissingRaced, h₁, h₂]

/-- Witness for the amended C3 at concrete inputs: present-at-check yields a
no-op `false`; lost race yields the propagated error. -/
theorem race_behaviour_witness :
    createIfMissingRaced "n" [] [("n", SecretValue.json (JSONValue.obj []))] [] =
      Except.ok (false, [])
    ∧ createIfMissingRaced "n" [] [] [("n", SecretValue.json (JSONValue.obj []))] =
      Except.error "ResourceExistsException" :=
  ⟨((race_behaviour "n" [] "pem" [("n", SecretValue.json (JSONValue.obj []))] []).1
      rfl).1,
   ((race_behaviour "n" [] "pem" [] [("n", SecretValue.json (JSONValue.obj []))]).2.1
      rfl rfl).1⟩

/-! ### C9: the cross-secret extractors are total -/

theorem findGatewayPair_ne_empty :
    ∀ ps p, findGatewayPair ps = some p → p ≠ "" := by
  intro ps
  induction ps with
  | nil => intro p h; cases h
  | cons pair rest ih =>
      intro p h
      unfold findGatewayPair at h
      dsimp only at h
      split at h
      · rename_i hcond
        cases h
        exact hcond.2
      · exact ih p h

theorem gatewayFromEnvLines_ne_empty :
    ∀ meta p, gatewayFromEnvLines meta = some p → p ≠ "" := by
  intro meta p h
  unfold gatewayFromEnvLines at h
  split at h
  · split at h
    · exact findGatewayPair_ne_empty _ p h
    · cases h
  · cases h

theorem gatewayFromBase64_ne_empty :
    ∀ meta p, gatewayFromBase64 meta = some p → p ≠ "" := by
  intro meta p h
  unfold gatewayFromBase64 at h
  split at h
  · split at h
    · dsimp only at h
      split at h
      · rename_i hcond
        cases h
        exact hcond.2
      · cases h
    · cases h
  · cases h

/-- C9: the cross-secret extractors are total on arbitrary JSON input —
every member access in the source is optional-chained or guarded and the
base64 decode is wrapped in a swallowing `try`/`catch`, so the embedding is
a total function: for every input, including `null`, non-objects and
malformed sub-documents, each extractor returns either the absent marker or
an extracted non-empty password string, never an exception. -/
theorem extractors_total :
    ∀ v : JSONValue,
      (extractGatewayFromMetadataG3auto v = none ∨
        ∃ p, extractGatewayFromMetadataG3auto v = some p ∧ p ≠ "")
      ∧ (extractSsjFromDispatcher v = none ∨
        ∃ p, extractSsjFromDispatcher v = some p ∧ p ≠ "") := by
  intro v
  constructor
  · cases h : extractGatewayFromMetadataG3auto v with
    | none => exact Or.inl rfl
    | some p =>
        refine Or.inr ⟨p, rfl, ?_⟩
        unfold extractGatewayFromMetadataG3auto at h
        split at h
        · rename_i q hq
          cases h
          exact gatewayFromEnvLines_ne_empty v p hq
        · exact gatewayFromBase64_ne_empty v p h
  · cases h : extractSsjFromDispatcher v with
    | none => exact Or.inl rfl
    | some p =>
        refine Or.inr ⟨p, rfl, ?_⟩
        unfold extractSsjFromDispatcher at h
        split at h
        · dsimp only at h
          split at h
          · split at h
            · cases h
            · rename_i hcond
              cases h
              exact hcond
          · cases h
        · cases h

/-! ### C10: empty or non-string static overrides are ignored -/

/-- `typeof v === "string" && v`: whether a JSON value is a truthy string. -/
def isTruthyStr (v : JSONValue) : Bool :=
  match v with
  | JSONValue.str s => s != ""
  | _ => false

theorem staticTokens_cons_skip {k : String} {v : JSONValue}
    (h : isTruthyStr v = false) (stat : List (String × JSONValue)) :
    staticTokens ((k, v) :: stat) = staticTokens stat := by
  unfold staticTokens
  cases v with
  | str s =>
      unfold isTruthyStr at h
      simp at h
      simp [List.foldl, h]
  | null => rfl
  | bool b => rfl
  | num n => rfl
  | arr xs => rfl
  | obj fields => rfl

/-- C10: a static override entry whose value is the empty string or not a
string does not take priority — the `indexd-service` block behaves exactly
as if that username were absent from `indexdServiceStatic`, resolving the
token from the derived sources or the placeholder. -/
theorem static_empty_override_ignored :
    ∀ k v c cache stat users indexDbPwd gatewayGen,
      isTruthyStr v = false →
      indexdServiceBlock c cache ((k, v) :: stat) users indexDbPwd gatewayGen =
        indexdServiceBlock c cache stat users indexDbPwd gatewayGen := by
  intro k v c cache stat users indexDbPwd gatewayGen h
  unfold indexdServiceBlock
  rw [staticTokens_cons_skip h]

/-- Shared-pass context for concrete block runs. -/
def ctxW : Ctx :=
  { project := "omix3", envName := "test", kmsKeyId := none, tags := [],
    hostS := "db.local", portS := "5432" }

/-- Witness for C10: an empty-string `fence` override behaves exactly as if
no `fence` entry were present. -/
theorem static_empty_override_ignored_witness :
    isTruthyStr (JSONValue.str "") = false
    ∧ indexdServiceBlock ctxW [] [("fence", JSONValue.str "")] [] none none =
        indexdServiceBlock ctxW [] [] [] none none :=
  ⟨rfl, static_empty_override_ignored "fence" (JSONValue.str "") ctxW [] [] []
      none none rfl⟩

/-! Run equations for the primitives. -/

theorem run_draw (ent : Nat → String) (s : SMState) :
    draw ent s = (Except.ok (ent s.ctr), { s with ctr := s.ctr + 1 }) := rfl

theorem run_randomAlnum (ent : Nat → String) (s : SMState) :
    randomAlnum ent s = (Except.ok (ent s.ctr), { s with ctr := s.ctr + 1 }) :=
  rfl

theorem run_randomBase64 (ent : Nat → String) (s : SMState) :
    randomBase64 ent s = (Except.ok (ent s.ctr), { s with ctr := s.ctr + 1 }) :=
  rfl

theorem run_generateRsaPrivateKeyPem (ent : Nat → String) (s : SMState) :
    generateRsaPrivateKeyPem ent s =
      (Except.ok (ent s.ctr), { s with ctr := s.ctr + 1 }) := rfl

theorem run_throwSM {α : Type} (e : String) (s : SMState) :
    throwSM (α := α) e s = (Except.error e, s) := rfl

theorem run_createIfMissing_present {name : String} {s : SMState}
    (payload : List (String × JSONValue)) (kmsKeyId : Option String)
    (tags : List (String × String)) (h : (findSecret s.store name).isSome = true) :
    createIfMissing name payload kmsKeyId tags s =
      (Except.ok false, { s with trace := StoreOp.describe name :: s.trace }) := by
  unfold createIfMissing
  rw [if_pos h]

theorem run_createIfMissing_absent {name : String} {s : SMState}
    (payload : List (String × JSONValue)) (kmsKeyId : Option String)
    (tags : List (String × String)) (h : (findSecret s.store name).isSome = false) :
    createIfMissing name payload kmsKeyId tags s =
      (Except.ok true,
       { s with
          store := (name, SecretValue.json (JSONValue.obj payload)) :: s.store,
          trace :=
            (if tags.isEmpty then [StoreOp.create name]
             else [StoreOp.tag name, StoreOp.create name]) ++
            StoreOp.describe name :: s.trace }) := by
  unfold createIfMissing
  rw [if_neg (by simp [h])]

theorem run_createPlainIfMissing_present {name : String} {s : SMState}
    (secretString : String) (kmsKeyId : Option String)
    (tags : List (String × String)) (h : (findSecret s.store name).isSome = true) :
    createPlainIfMissing name secretString kmsKeyId tags s =
      (Except.ok false, { s with trace := StoreOp.describe name :: s.trace }) := by
  unfold createPlainIfMissing
  rw [if_pos h]

theorem run_tryGet_json {name : String} {s : SMState} {v : JSONValue}
    (h : findSecret s.store name = some (SecretValue.json v)) :
    tryGetSecretJson name s =
      (Except.ok (some v), { s with trace := StoreOp.read name :: s.trace }) := by
  unfold tryGetSecretJson
  rw [h]

theorem run_tryGet_none {name : String} {s : SMState}
    (h : findSecret s.store name = none) :
    tryGetSecretJson name s =
      (Except.ok none, { s with trace := StoreOp.read name :: s.trace }) := by
  unfold tryGetSecretJson
  rw [h]

theorem run_getSecretJson_json {name : String} {s : SMState} {v : JSONValue}
    (h : findSecret s.store name = some (SecretValue.json v)) :
    getSecretJson name s =
      (Except.ok v, { s with trace := StoreOp.read name :: s.trace }) := by
  unfold getSecretJson
  rw [h]

theorem run_getDbPassword_hit {cache : List (String × String)} {svc : String}
    (project envName : String) (s : SMState)
    (h : cacheTruthy cache svc = true) :
    getDbPassword project envName cache svc s =
      (Except.ok (lookupStr cache svc), s) := by
  unfold getDbPassword
  rw [if_pos h]
  rfl

theorem run_getDbPassword_miss_json {cache : List (String × String)}
    {svc : String} {project envName : String} {s : SMState} {v : JSONValue}
    (h : cacheTruthy cache svc = false)
    (hf : findSecret s.store (secretName project envName svc) =
      some (SecretValue.json v)) :
    getDbPassword project envName cache svc s =
      (Except.ok (dbPasswordOfSecret (some v)),
       { s with trace :=
          StoreOp.read (secretName project envName svc) :: s.trace }) := by
  unfold getDbPassword
  rw [if_neg (by simp [h])]
  rw [run_bind, run_tryGet_json hf]
  rfl

theorem run_getDbPassword_miss_none {cache : List (String × String)}
    {svc : String} {project envName : String} {s : SMState}
    (h : cacheTruthy cache svc = false)
    (hf : findSecret s.store (secretName project envName svc) = none) :
    getDbPassword project envName cache svc s =
      (Except.ok none,
       { s with trace :=
          StoreOp.read (secretName project envName svc) :: s.trace }) := by
  unfold getDbPassword
  rw [if_neg (by simp [h])]
  rw [run_bind, run_tryGet_none hf]
  rfl

/-- A cache-missing read of a JSON-or-absent name succeeds and leaves the
store (and the entropy counter) unchanged. -/
theorem getDbPassword_ok {project envName : String}
    {cache : List (String × String)} {svc : String} {s : SMState}
    (h : cacheTruthy cache svc = true ∨
      JsonOrAbsent s.store (secretName project envName svc)) :
    ∃ res t, getDbPassword project envName cache svc s = (Except.ok res, t)
      ∧ t.store = s.store ∧ t.ctr = s.ctr := by
  by_cases hct : cacheTruthy cache svc = true
  · exact ⟨lookupStr cache svc, s, run_getDbPassword_hit project envName s hct, rfl, rfl⟩
  · have hct' : cacheTruthy cache svc = false := by
      cases hcv : cacheTruthy cache svc
      · rfl
      · exact absurd hcv hct
    have hja : JsonOrAbsent s.store (secretName project envName svc) := by
      cases h with
      | inl hl => exact absurd hl hct
      | inr hr => exact hr
    cases hf : findSecret s.store (secretName project envName svc) with
    | none =>
        exact ⟨none, _, run_getDbPassword_miss_none hct' hf, rfl, rfl⟩
    | some v =>
        cases v with
        | json j =>
            exact ⟨dbPasswordOfSecret (some j), _,
              run_getDbPassword_miss_json hct' hf, rfl, rfl⟩
        | plain str => exact absurd hf (hja str)

/-- A successful `getDbPassword` leaves the store and counter unchanged, and
certifies either a truthy cache entry or a JSON-or-absent store name. -/
theorem getDbPassword_ok_inv {project envName : String}
    {cache : List (String × String)} {svc : String} {s : SMState}
    {res : Option String} {t : SMState}
    (h : getDbPassword project envName cache svc s = (Except.ok res, t)) :
    t.store = s.store ∧ t.ctr = s.ctr ∧
      (cacheTruthy cache svc = true ∨
        JsonOrAbsent s.store (secretName project envName svc)) := by
  by_cases hct : cacheTruthy cache svc = true
  · rw [run_getDbPassword_hit project envName s hct] at h
    cases h
    exact ⟨rfl, rfl, Or.inl hct⟩
  · have hct' : cacheTruthy cache svc = false := by
      cases hcv : cacheTruthy cache svc
      · rfl
      · exact absurd hcv hct
    cases hf : findSecret s.store (secretName project envName svc) with
    | none =>
        rw [run_getDbPassword_miss_none hct' hf] at h
        cases h
        refine ⟨rfl, rfl, Or.inr ?_⟩
        intro str hc
        rw [hf] at hc
        cases hc
    | some v =>
        cases v with
        | json j =>
            rw [run_getDbPassword_miss_json hct' hf] at h
            cases h
            refine ⟨rfl, rfl, Or.inr ?_⟩
            intro str hc
            rw [hf] at hc
            cases hc
        | plain str =>
            exfalso
            unfold getDbPassword at h
            rw [if_neg (by simp [hct'])] at h
            rw [run_bind] at h
            unfold tryGetSecretJson at h
            rw [hf] at h
            simp at h

/-! ### C4: the metadata bundle's database password resolution -/

/-- Whether a run result is a success. -/
def isOk {α : Type} : Except String α → Bool
  | Except.ok _ => true
  | Except.error _ => false

/-- The JSON payload stored under a name (`null` when absent or plaintext). -/
def storedJson (st : List (String × SecretValue)) (n : String) : JSONValue :=
  match findSecret st n with
  | some (SecretValue.json v) => v
  | _ => JSONValue.null

/-- Array indexing `v[i]` (`null` out of range or on non-arrays). -/
def jsIndex (v : JSONValue) (i : Nat) : JSONValue :=
  match v with
  | JSONValue.arr xs => xs.getD i JSONValue.null
  | _ => JSONValue.null

/-- The password recoverable from the stored per-service credential. -/
def storedDbPassword (st : List (String × SecretValue)) (name : String) :
    Option String :=
  match findSecret st name with
  | some (SecretValue.json v) => dbPasswordOfSecret (some v)
  | _ => none

/-- The amended resolution rule for the metadata bundle's `db_password`: the
in-pass cache entry for `metadata` when truthy (secret newly created this
pass), else the password field of the already-stored `<project>-<env>-metadata`
secret when it is a truthy string (prior-pass reuse), else a fresh draw. -/
def metadataDbPasswordAmended (ent : Nat → String) (cache : List (String × String))
    (st : List (String × SecretValue)) (ctr : Nat) (c : Ctx) : String :=
  if cacheTruthy cache "metadata" then jsNullish (lookupStr cache "metadata") ""
  else
    match storedDbPassword st (secretName c.project c.envName "metadata") with
    | some d => d
    | none => ent ctr

theorem metadataDbPasswordStep_ok_inv {ent : Nat → String} {c : Ctx}
    {cache : List (String × String)} {s : SMState} {dbp : String} {u : SMState}
    (h : metadataDbPasswordStep ent c cache s = (Except.ok dbp, u)) :
    u.store = s.store ∧ dbp = metadataDbPasswordAmended ent cache s.store s.ctr c := by
  unfold metadataDbPasswordStep at h
  obtain ⟨dbPw, u0, hg, hm⟩ := bind_eq_ok h
  by_cases hct : cacheTruthy cache "metadata" = true
  · rw [run_getDbPassword_hit c.project c.envName s hct] at hg
    simp only [Prod.mk.injEq, Except.ok.injEq] at hg
    obtain ⟨h1, h2⟩ := hg
    subst h2
    cases hl : lookupStr cache "metadata" with
    | none => simp [cacheTruthy, hl] at hct
    | some pw =>
        rw [hl] at h1
        rw [← h1] at hm
        dsimp only at hm
        rw [run_pure] at hm
        simp only [Prod.mk.injEq, Except.ok.injEq] at hm
        obtain ⟨h3, h4⟩ := hm
        subst h3
        subst h4
        refine ⟨rfl, ?_⟩
        unfold metadataDbPasswordAmended
        rw [if_pos hct, hl]
        rfl
  · have hct' : cacheTruthy cache "metadata" = false := by
      cases hcv : cacheTruthy cache "metadata"
      · rfl
      · exact absurd hcv hct
    cases hf : findSecret s.store (secretName c.project c.envName "metadata") with
    | some v =>
        cases v with
        | json j =>
            rw [run_getDbPassword_miss_json hct' hf] at hg
            simp only [Prod.mk.injEq, Except.ok.injEq] at hg
            obtain ⟨h1, h2⟩ := hg
            rw [← h1] at hm
            cases hdb : dbPasswordOfSecret (some j) with
            | some d =>
                rw [hdb] at hm
                dsimp only at hm
                rw [run_pure] at hm
                simp only [Prod.mk.injEq, Except.ok.injEq] at hm
                obtain ⟨h3, h4⟩ := hm
                subst h3
                subst h4
                refine ⟨by rw [← h2], ?_⟩
                unfold metadataDbPasswordAmended
                rw [if_neg (by simp [hct'])]
                unfold storedDbPassword
                rw [hf]
                dsimp only
                rw [hdb]
            | none =>
                rw [hdb] at hm
                unfold randomAlnum at hm
                dsimp only at hm
                rw [run_draw] at hm
                simp only [Prod.mk.injEq, Except.ok.injEq] at hm
                obtain ⟨h3, h4⟩ := hm
                subst h3
                constructor
                · rw [← h4]
                  dsimp only
                  rw [← h2]
                · unfold metadataDbPasswordAmended
                  rw [if_neg (by simp [hct'])]
                  unfold storedDbPassword
                  rw [hf]
                  dsimp only
                  rw [hdb]
                  have : u0.ctr = s.ctr := by rw [← h2]
                  rw [this]
        | plain str =>
            exfalso
            unfold getDbPassword at hg
            rw [if_neg (by simp [hct'])] at hg
            rw [run_bind] at hg
            unfold tryGetSecretJson at hg
            rw [hf] at hg
            simp at hg
    | none =>
        rw [run_getDbPassword_miss_none hct' hf] at hg
        simp only [Prod.mk.injEq, Except.ok.injEq] at hg
        obtain ⟨h1, h2⟩ := hg
        rw [← h1] at hm
        unfold randomAlnum at hm
        dsimp only at hm
        rw [run_draw] at hm
        simp only [Prod.mk.injEq, Except.ok.injEq] at hm
        obtain ⟨h3, h4⟩ := hm
        subst h3
        constructor
        · rw [← h4]
          dsimp only
          rw [← h2]
        · unfold metadataDbPasswordAmended
          rw [if_neg (by simp [hct'])]
          unfold storedDbPassword
          rw [hf]
          dsimp only
          have : u0.ctr = s.ctr := by rw [← h2]
          rw [this]

/-- C4 amended: when the `metadata-g3auto` secret is created by the block,
its `dbcreds.json.db_password` follows the three-way rule
`metadataDbPasswordAmended`: the in-pass cache entry for `metadata` when the
per-service secret was newly created this pass, else the password stored in
an already-existing `<project>-<env>-metadata` secret, else a fresh draw. -/
theorem metadata_db_password_resolution :
    ∀ ent c flags g cache s r t,
      metadataG3autoBlock ent c flags g cache s = (Except.ok r, t) →
      flags.metadataG3auto = true →
      findSecret s.store (secretName c.project c.envName "metadata-g3auto") = none →
      ∃ payload,
        findSecret t.store (secretName c.project c.envName "metadata-g3auto") =
          some (SecretValue.json (JSONValue.obj payload))
        ∧ jsField (jsFieldList payload "dbcreds.json") "db_password" =
            JSONValue.str (metadataDbPasswordAmended ent cache s.store s.ctr c) := by
  intro ent c flags g cache s r t h hflag habs
  unfold metadataG3autoBlock at h
  rw [hflag, if_pos rfl] at h
  cases hh : optTruthy g.hostname with
  | false =>
      rw [hh] at h
      rw [if_neg (by simp)] at h
      rw [run_throwSM] at h
      simp at h
  | true =>
      rw [hh, if_pos rfl] at h
      dsimp only at h
      obtain ⟨dbp, u, h1, h2⟩ := bind_eq_ok h
      obtain ⟨hust, hdbp⟩ := metadataDbPasswordStep_ok_inv h1
      obtain ⟨apwd, u2, h3, h4⟩ := bind_eq_ok h2
      unfold randomAlnum at h3
      rw [run_draw] at h3
      simp only [Prod.mk.injEq, Except.ok.injEq] at h3
      obtain ⟨h3a, h3b⟩ := h3
      obtain ⟨did, u3, h5, h6⟩ := bind_eq_ok h4
      have hu2 : u2.store = s.store := by
        rw [← h3b]
        exact hust
      have habs2 : (findSecret u2.store
          (secretName c.project c.envName "metadata-g3auto")).isSome = false := by
        rw [hu2, habs]
        rfl
      rw [run_createIfMissing_absent _ _ _ habs2] at h5
      simp only [Prod.mk.injEq, Except.ok.injEq] at h5
      obtain ⟨h5a, h5b⟩ := h5
      rw [run_pure] at h6
      simp only [Prod.mk.injEq, Except.ok.injEq] at h6
      obtain ⟨h6a, h6b⟩ := h6
      subst h6b
      refine ⟨[("dbcreds.json", JSONValue.obj
               [("db_host", JSONValue.str c.hostS),
                ("db_username", JSONValue.str "metadata"),
                ("db_password", JSONValue.str dbp),
                ("db_database", JSONValue.str "metadata")]),
             ("metadata.env", JSONValue.arr
               [JSONValue.str "DEBUG=false",
                JSONValue.str ("DB_HOST=" ++ c.hostS),
                JSONValue.str "DB_USER=metadata",
                JSONValue.str ("DB_PASSWORD=" ++ dbp),
                JSONValue.str "DB_DATABASE=metadata",
                JSONValue.str ("ADMIN_LOGINS=gateway:" ++ apwd)]),
             ("base64Authz.txt", JSONValue.str (base64Encode ("gateway:" ++ apwd)))],
          ?_, ?_⟩
      · rw [← h5b]
        exact findSecret_cons_self _ _ _
      · rw [hdbp]
        rfl

/-- Concrete flags enabling only the metadata bundle. -/
def flagsMd : CreateFlags := { flagsNone with metadataG3auto := true }

/-- A `g3auto` input carrying only a hostname. -/
def g3autoHost : G3Auto := { g3autoEmpty with hostname := some "example.org" }

/-- C4 inputs: no services, metadata bundle enabled. -/
def propsC4 : HandlerProps :=
  { propsW with services := [], createFlags := flagsMd, g3auto := g3autoHost }

/-- C4 event. -/
def evC4 : HandlerEvent := { requestType := "Create", props := propsC4 }

/-- C4 store: the master secret plus an `omix3-test-metadata` per-service
credential left by a prior pass, holding password `X`. -/
def stC4 : SMState :=
  { store := [("master", SecretValue.json masterJson),
              ("omix3-test-metadata", SecretValue.json
                (JSONValue.obj [("password", JSONValue.str "X")]))],
    trace := [], ctr := 0 }

/-- Counterexample to C4 as stated: `omix3-test-metadata` exists from a
prior pass (so it is not newly created during this pass), yet the metadata
bundle's `db_password` is the stored `X`, not a freshly generated password —
the constant entropy stream only ever produces `FRESH`. -/
theorem metadata_password_not_fresh_counterexample :
    isOk (handler entF none evC4 stC4).1 = true
    ∧ jsField (jsField (storedJson ((handler entF none evC4 stC4).2).store
        "omix3-test-metadata-g3auto") "dbcreds.json") "db_password" =
      JSONValue.str "X"
    ∧ ("X" : String) ≠ "FRESH" :=
  ⟨rfl, rfl, by decide⟩

/-- Witness for the amended C4 at concrete inputs: the block reuses the
prior-pass stored password, exactly as `metadataDbPasswordAmended` says. -/
theorem metadata_db_password_resolution_witness :
    flagsMd.metadataG3auto = true
    ∧ findSecret stC4.store (secretName "omix3" "test" "metadata-g3auto") = none
    ∧ ∃ payload,
        findSecret ((metadataG3autoBlock entF ctxW flagsMd g3autoHost [] stC4).2).store
            (secretName "omix3" "test" "metadata-g3auto") =
          some (SecretValue.json (JSONValue.obj payload))
        ∧ jsField (jsFieldList payload "dbcreds.json") "db_password" =
            JSONValue.str (metadataDbPasswordAmended entF [] stC4.store stC4.ctr ctxW) :=
  ⟨rfl, rfl,
    metadata_db_password_resolution entF ctxW flagsMd g3autoHost [] stC4
      ((metadataG3autoBlock entF ctxW flagsMd g3autoHost [] stC4).1.toOption.getD
        ([], none))
      ((metadataG3autoBlock entF ctxW flagsMd g3autoHost [] stC4).2)
      (by rfl) rfl rfl⟩

/-! ### C5: dispatcher bundle password defaulting -/

theorem jsOr_of_not_truthy {o : Option String} {d : String}
    (h : optTruthy o = false) : jsOr o d = d := by
  cases o with
  | none => rfl
  | some s =>
      unfold optTruthy at h
      simp at h
      simp [jsOr, h]

/-- C5 amended: in the dispatcher job bundle, when the explicit password
overrides are not supplied (absent or empty), each password field defaults
to the corresponding pre-read per-service database password; when that is
also unavailable the field falls back to the literal `REPLACE_ME`
placeholder — no password is freshly generated in this block. -/
theorem ssj_password_defaults :
    ∀ c flags g region indexDbPwd metadataDbPwd s r t,
      ssjBlock c flags g region indexDbPwd metadataDbPwd s = (Except.ok r, t) →
      flags.ssjdispatcherCreds = true →
      optTruthy g.ssjIndexdPassword = false →
      optTruthy g.ssjMetadataPassword = false →
      findSecret s.store (secretName c.project c.envName "ssjdispatcher-creds") =
        none →
      ∃ payload,
        findSecret t.store (secretName c.project c.envName "ssjdispatcher-creds") =
          some (SecretValue.json (JSONValue.obj payload))
        ∧ jsField (jsField (jsIndex (jsFieldList payload "JOBS") 0) "imageConfig")
            "password" = JSONValue.str (jsOr indexDbPwd "REPLACE_ME")
        ∧ jsField (jsField (jsField (jsIndex (jsFieldList payload "JOBS") 0)
            "imageConfig") "metadataService") "password" =
          JSONValue.str (jsOr metadataDbPwd "REPLACE_ME") := by
  intro c flags g region indexDbPwd metadataDbPwd s r t h hflag hidx hmds habs
  unfold ssjBlock at h
  rw [hflag, if_pos rfl] at h
  cases hurl : optTruthy g.ssjSqsUrl with
  | false =>
      rw [hurl] at h
      rw [if_neg (by simp)] at h
      rw [run_throwSM] at h
      simp at h
  | true =>
      rw [hurl, if_pos rfl] at h
      rw [jsOr_of_not_truthy hidx, jsOr_of_not_truthy hmds] at h
      obtain ⟨did, u, h1, h2⟩ := bind_eq_ok h
      have habs' : (findSecret s.store
          (secretName c.project c.envName "ssjdispatcher-creds")).isSome = false := by
        rw [habs]
        rfl
      rw [run_createIfMissing_absent _ _ _ habs'] at h1
      simp only [Prod.mk.injEq, Except.ok.injEq] at h1
      obtain ⟨h1a, h1b⟩ := h1
      rw [run_pure] at h2
      simp only [Prod.mk.injEq, Except.ok.injEq] at h2
      obtain ⟨h2a, h2b⟩ := h2
      subst h2b
      refine ⟨[("AWS", JSONValue.obj [("region", JSONValue.str region)]),
          ("SQS", JSONValue.obj [("url", JSONValue.str (jsNullish g.ssjSqsUrl ""))]),
          ("JOBS", JSONValue.arr
            [JSONValue.obj
              [("name", JSONValue.str "indexing"),
               ("pattern", JSONValue.str (jsOr g.ssjDataPattern "")),
               ("imageConfig", JSONValue.obj
                 [("url", JSONValue.str "http://indexd-service/index"),
                  ("username", JSONValue.str (jsOr g.ssjIndexdUser "ssj")),
                  ("password", JSONValue.str (jsOr indexDbPwd "REPLACE_ME")),
                  ("metadataService", JSONValue.obj
                    [("url", JSONValue.str "http://revproxy-service/mds"),
                     ("username", JSONValue.str (jsOr g.ssjMetadataUser "gateway")),
                     ("password", JSONValue.str (jsOr metadataDbPwd "REPLACE_ME"))])]),
               ("RequestCPU", JSONValue.str "500m"),
               ("RequestMem", JSONValue.str "0.5Gi"),
               ("ServiceAccount", JSONValue.str "ssjdispatcher-service-account")]])],
        ?_, ?_, ?_⟩
      · rw [← h1b]
        exact findSecret_cons_self _ _ _
      · rfl
      · rfl

/-- Concrete flags enabling only the dispatcher bundle. -/
def flagsSsj : CreateFlags := { flagsNone with ssjdispatcherCreds := true }

/-- A `g3auto` input carrying only the dispatcher queue URL. -/
def g3autoSsj : G3Auto := { g3autoEmpty with ssjSqsUrl := some "https://sqs.example/q" }

/-- C5 inputs: no services, dispatcher bundle enabled, no overrides. -/
def propsC5 : HandlerProps :=
  { propsW with services := [], createFlags := flagsSsj, g3auto := g3autoSsj }

/-- C5 event. -/
def evC5 : HandlerEvent := { requestType := "Create", props := propsC5 }

/-- Counterexample to C5 as stated: with no overrides and no per-service
database secrets available, the dispatcher password field is set to the
literal placeholder `REPLACE_ME` — it is not a freshly generated password
(the constant entropy stream only ever produces `FRESH`). -/
theorem ssj_password_placeholder_counterexample :
    isOk (handler entF none evC5 stW).1 = true
    ∧ jsField (jsField (jsIndex (jsField (storedJson
        ((handler entF none evC5 stW).2).store "omix3-test-ssjdispatcher-creds")
        "JOBS") 0) "imageConfig") "password" = JSONValue.str "REPLACE_ME"
    ∧ ("REPLACE_ME" : String) ≠ "FRESH" :=
  ⟨rfl, rfl, by decide⟩

/-- Witness for the amended C5 at concrete inputs: both password fields fall
back to the placeholder when overrides and database passwords are absent. -/
theorem ssj_password_defaults_witness :
    flagsSsj.ssjdispatcherCreds = true
    ∧ optTruthy g3autoSsj.ssjIndexdPassword = false
    ∧ findSecret stW.store (secretName "omix3" "test" "ssjdispatcher-creds") = none
    ∧ ∃ payload,
        findSecret ((ssjBlock ctxW flagsSsj g3autoSsj "ap-southeast-2" none none
            stW).2).store (secretName "omix3" "test" "ssjdispatcher-creds") =
          some (SecretValue.json (JSONValue.obj payload))
        ∧ jsField (jsField (jsIndex (jsFieldList payload "JOBS") 0) "imageConfig")
            "password" = JSONValue.str (jsOr none "REPLACE_ME")
        ∧ jsField (jsField (jsField (jsIndex (jsFieldList payload "JOBS") 0)
            "imageConfig") "metadataService") "password" =
          JSONValue.str (jsOr none "REPLACE_ME") :=
  ⟨rfl, rfl, rfl,
    ssj_password_defaults ctxW flagsSsj g3autoSsj "ap-southeast-2" none none stW
      ((ssjBlock ctxW flagsSsj g3autoSsj "ap-southeast-2" none none stW).1.toOption.getD
        [])
      ((ssjBlock ctxW flagsSsj g3autoSsj "ap-southeast-2" none none stW).2)
      (by rfl) rfl rfl rfl rfl⟩

/-! ### C6: the fence token reuses the fence database password -/

theorem lookupStr_setTok_self (l : List (String × String)) (k v : String) :
    lookupStr (setTok l k v) k = some v := by
  unfold setTok
  by_cases hp : (lookupStr l k).isSome
  · rw [if_pos hp]
    induction l with
    | nil => simp [lookupStr] at hp
    | cons kv rest ih =>
        by_cases hk : kv.1 = k
        · simp only [List.map]
          rw [if_pos hk]
          unfold lookupStr
          rw [if_pos rfl]
        · unfold lookupStr at hp
          rw [if_neg hk] at hp
          simp only [List.map]
          rw [if_neg hk]
          unfold lookupStr
          rw [if_neg hk]
          exact ih hp
  · rw [if_neg hp]
    induction l with
    | nil => simp [lookupStr]
    | cons kv rest ih =>
        by_cases hk : kv.1 = k
        · exfalso
          unfold lookupStr at hp
          rw [if_pos hk] at hp
          simp at hp
        · unfold lookupStr at hp
          rw [if_neg hk] at hp
          simp only [List.cons_append]
          unfold lookupStr
          rw [if_neg hk]
          exact ih hp

theorem lookupStr_setTok_ne (l : List (String × String)) {k k' : String}
    (v : String) (h : k ≠ k') : lookupStr (setTok l k v) k' = lookupStr l k' := by
  unfold setTok
  by_cases hp : (lookupStr l k).isSome
  · rw [if_pos hp]
    induction l with
    | nil => rfl
    | cons kv rest ih =>
        by_cases hk : kv.1 = k
        · simp only [List.map]
          rw [if_pos hk]
          unfold lookupStr
          rw [if_neg h, if_neg (by rw [← hk] at h; exact hk ▸ h)]
          · unfold lookupStr at hp
            rw [if_pos hk] at hp
            by_cases hp' : (lookupStr rest k).isSome
            · exact ih hp'
            · clear ih
              induction rest with
              | nil => rfl
              | cons kv2 rest2 ih2 =>
                  by_cases hk2 : kv2.1 = k
                  · exfalso
                    unfold lookupStr at hp'
                    rw [if_pos hk2] at hp'
                    simp at hp'
                  · simp only [List.map]
                    rw [if_neg hk2]
                    unfold lookupStr
                    by_cases hk2' : kv2.1 = k'
                    · rw [if_pos hk2', if_pos hk2']
                    · rw [if_neg hk2', if_neg hk2']
                      unfold lookupStr at hp'
                      rw [if_neg hk2] at hp'
                      exact ih2 hp'
        · simp only [List.map]
          rw [if_neg hk]
          unfold lookupStr
          by_cases hk' : kv.1 = k'
          · rw [if_pos hk', if_pos hk']
          · rw [if_neg hk', if_neg hk']
            unfold lookupStr at hp
            rw [if_neg hk] at hp
            exact ih hp
  · rw [if_neg hp]
    induction l with
    | nil =>
        simp only [List.nil_append]
        unfold lookupStr
        rw [if_neg h]
        rfl
    | cons kv rest ih =>
        simp only [List.cons_append]
        unfold lookupStr
        by_cases hk' : kv.1 = k'
        · rw [if_pos hk', if_pos hk']
        · rw [if_neg hk', if_neg hk']
          unfold lookupStr at hp
          by_cases hk : kv.1 = k
          · exfalso
            rw [if_pos hk] at hp
            simp at hp
          · rw [if_neg hk] at hp
            exact ih hp

theorem tokTruthy_of_lookup {l : List (String × String)} {k X : String}
    (h : lookupStr l k = some X) (hne : X ≠ "") : tokTruthy l k = true := by
  unfold tokTruthy
  rw [h]
  simp [hne]

theorem jsFieldList_map_str {l : List (String × String)} {k X : String}
    (h : lookupStr l k = some X) :
    jsFieldList (l.map (fun kv => (kv.1, JSONValue.str kv.2))) k =
      JSONValue.str X := by
  induction l with
  | nil => cases h
  | cons kv rest ih =>
      unfold lookupStr at h
      by_cases hk : kv.1 = k
      · rw [if_pos hk] at h
        cases h
        simp only [List.map]
        unfold jsFieldList
        rw [if_pos hk]
      · rw [if_neg hk] at h
        simp only [List.map]
        unfold jsFieldList
        rw [if_neg hk]
        exact ih h

theorem tryGet_ok_inv {name : String} {s : SMState} {res : Option JSONValue}
    {u : SMState} (h : tryGetSecretJson name s = (Except.ok res, u)) :
    u.store = s.store ∧ u.ctr = s.ctr := by
  unfold tryGetSecretJson at h
  cases hf : findSecret s.store name with
  | none =>
      rw [hf] at h
      cases h
      exact ⟨rfl, rfl⟩
  | some v =>
      cases v with
      | json j =>
          rw [hf] at h
          cases h
          exact ⟨rfl, rfl⟩
      | plain str =>
          rw [hf] at h
          simp at h

/-- When no truthy static `fence` token exists and the fence database
password resolves to `X` (from the in-pass cache or the stored per-service
secret), the fence step sets the token to exactly `X`. -/
theorem fenceTokenStep_reuse {c : Ctx} {cache t0 : List (String × String)}
    {s : SMState} {X : String}
    (hts : tokTruthy t0 "fence" = false)
    (hsrc : (lookupStr cache "fence" = some X ∧ X ≠ "") ∨
      (cacheTruthy cache "fence" = false ∧
        ∃ v, findSecret s.store (secretName c.project c.envName "fence") =
          some (SecretValue.json v) ∧
          jsField v "password" = JSONValue.str X ∧ X ≠ "")) :
    ∃ u, fenceTokenStep c cache t0 s = (Except.ok (setTok t0 "fence" X), u)
      ∧ u.store = s.store := by
  unfold fenceTokenStep
  rw [hts]
  rw [if_neg (by simp)]
  cases hsrc with
  | inl hl =>
      obtain ⟨hlk, hne⟩ := hl
      have hct : cacheTruthy cache "fence" = true := by
        unfold cacheTruthy
        rw [hlk]
        simp [hne]
      rw [run_bind, run_getDbPassword_hit c.project c.envName s hct, hlk]
      exact ⟨s, rfl, rfl⟩
  | inr hr =>
      obtain ⟨hct', v, hf, hpw, hne⟩ := hr
      rw [run_bind, run_getDbPassword_miss_json hct' hf]
      have hdb : dbPasswordOfSecret (some v) = some X := by
        unfold dbPasswordOfSecret
        dsimp only
        rw [hpw]
        dsimp only
        simp [hne]
      rw [hdb]
      exact ⟨_, rfl, rfl⟩

theorem sheepdogTokenStep_ok_inv {c : Ctx} {cache t1 : List (String × String)}
    {s : SMState} {t2 : List (String × String)} {u : SMState}
    (h : sheepdogTokenStep c cache t1 s = (Except.ok t2, u)) :
    u.store = s.store ∧ (t2 = t1 ∨ ∃ v, t2 = setTok t1 "sheepdog" v) := by
  unfold sheepdogTokenStep at h
  split at h
  · rw [run_pure] at h
    simp only [Prod.mk.injEq, Except.ok.injEq] at h
    obtain ⟨h1, h2⟩ := h
    subst h1
    subst h2
    exact ⟨rfl, Or.inl rfl⟩
  · obtain ⟨f, u0, hg, hp⟩ := bind_eq_ok h
    obtain ⟨hst, hctr, -⟩ := getDbPassword_ok_inv hg
    rw [run_pure] at hp
    simp only [Prod.mk.injEq, Except.ok.injEq] at hp
    obtain ⟨h1, h2⟩ := hp
    subst h2
    refine ⟨hst, ?_⟩
    cases f with
    | some fv => exact Or.inr ⟨fv, h1.symm⟩
    | none => exact Or.inl h1.symm

theorem gatewayTokenStep_ok_inv {c : Ctx} {gatewayGen : Option String}
    {t3 : List (String × String)} {s : SMState} {t4 : List (String × String)}
    {u : SMState} (h : gatewayTokenStep c gatewayGen t3 s = (Except.ok t4, u)) :
    u.store = s.store ∧ (t4 = t3 ∨ ∃ v, t4 = setTok t3 "gateway" v) := by
  unfold gatewayTokenStep at h
  split at h
  · rw [run_pure] at h
    simp only [Prod.mk.injEq, Except.ok.injEq] at h
    obtain ⟨h1, h2⟩ := h
    subst h1
    subst h2
    exact ⟨rfl, Or.inl rfl⟩
  · split at h
    · rw [run_pure] at h
      simp only [Prod.mk.injEq, Except.ok.injEq] at h
      obtain ⟨h1, h2⟩ := h
      subst h2
      exact ⟨rfl, Or.inr ⟨_, h1.symm⟩⟩
    · obtain ⟨meta, u0, hg, hp⟩ := bind_eq_ok h
      obtain ⟨hst, hctr⟩ := tryGet_ok_inv hg
      rw [run_pure] at hp
      simp only [Prod.mk.injEq, Except.ok.injEq] at hp
      obtain ⟨h1, h2⟩ := hp
      subst h2
      refine ⟨hst, ?_⟩
      cases meta with
      | none => exact Or.inl h1.symm
      | some m =>
          by_cases hT : jsTruthy m = true
          · cases hx : extractGatewayFromMetadataG3auto m with
            | none =>
                refine Or.inl ?_
                rw [← h1]
                simp [hT, hx]
            | some gv =>
                by_cases hgv : gv = ""
                · refine Or.inl ?_
                  rw [← h1]
                  simp [hT, hx, hgv]
                · refine Or.inr ⟨gv, ?_⟩
                  rw [← h1]
                  simp [hT, hx, hgv]
          · refine Or.inl ?_
            rw [← h1]
            simp [hT]

/-- In the final required-usernames fill-in loop, an existing non-empty
token is never replaced. -/
theorem foldl_replaceMe_keeps {X k : String} (hne : X ≠ "") :
    ∀ (req : List String) (acc : List (String × String)),
      lookupStr acc k = some X →
      lookupStr (req.foldl (fun acc u =>
        if tokTruthy acc u then acc else setTok acc u "REPLACE_ME") acc) k =
        some X := by
  intro req
  induction req with
  | nil => intro acc h; exact h
  | cons u rest ih =>
      intro acc h
      simp only [List.foldl]
      by_cases hu : tokTruthy acc u = true
      · rw [if_pos hu]
        exact ih acc h
      · rw [if_neg hu]
        by_cases hfu : u = k
        · exfalso
          subst hfu
          exact hu (tokTruthy_of_lookup h hne)
        · refine ih _ ?_
          rw [lookupStr_setTok_ne _ _ hfu]
          exact h

/-- C6: if the per-service database credential for `fence` holds password
`X` — created earlier in the same pass (in-pass cache) or in a prior pass
(stored secret) — and no truthy static override for `fence` is supplied,
then the `indexd-service` bundle created by the same invocation maps
`fence` to exactly `X`. -/
theorem fence_token_reuse :
    ∀ c cache stat users indexDbPwd gatewayGen s r t X,
      indexdServiceBlock c cache stat users indexDbPwd gatewayGen s =
        (Except.ok r, t) →
      tokTruthy (staticTokens stat) "fence" = false →
      ((lookupStr cache "fence" = some X ∧ X ≠ "") ∨
        (cacheTruthy cache "fence" = false ∧
          ∃ v, findSecret s.store (secretName c.project c.envName "fence") =
            some (SecretValue.json v) ∧
            jsField v "password" = JSONValue.str X ∧ X ≠ "")) →
      findSecret s.store (secretName c.project c.envName "indexd-service") =
        none →
      ∃ payload,
        findSecret t.store (secretName c.project c.envName "indexd-service") =
          some (SecretValue.json (JSONValue.obj payload))
        ∧ jsFieldList payload "fence" = JSONValue.str X := by
  intro c cache stat users indexDbPwd gatewayGen s r t X h hts hsrc habs
  have hXne : X ≠ "" := by
    cases hsrc with
    | inl hl => exact hl.2
    | inr hr => exact hr.2.choose_spec.2.2
  unfold indexdServiceBlock at h
  dsimp only at h
  obtain ⟨t1, u1, h1, h⟩ := bind_eq_ok h
  obtain ⟨u1', hstep, hust⟩ := fenceTokenStep_reuse hts hsrc
  rw [hstep] at h1
  simp only [Prod.mk.injEq, Except.ok.injEq] at h1
  obtain ⟨h1a, h1b⟩ := h1
  subst h1a
  subst h1b
  obtain ⟨t2, u2, h2, h⟩ := bind_eq_ok h
  obtain ⟨hu2, ht2⟩ := sheepdogTokenStep_ok_inv h2
  have hl1 : lookupStr (setTok (staticTokens stat) "fence" X) "fence" = some X :=
    lookupStr_setTok_self _ _ _
  have hl2 : lookupStr t2 "fence" = some X := by
    cases ht2 with
    | inl he => rw [he]; exact hl1
    | inr he =>
        obtain ⟨v, he⟩ := he
        rw [he, lookupStr_setTok_ne _ _ (by decide)]
        exact hl1
  obtain ⟨t4, u3, h3, h⟩ := bind_eq_ok h
  obtain ⟨hu3, ht4⟩ := gatewayTokenStep_ok_inv h3
  have hl3 : lookupStr (if tokTruthy t2 "ssj" = true then t2
      else setTok t2 "ssj" (jsOr indexDbPwd "REPLACE_ME")) "fence" = some X := by
    by_cases hssj : tokTruthy t2 "ssj" = true
    · rw [if_pos hssj]
      exact hl2
    · rw [if_neg hssj, lookupStr_setTok_ne _ _ (by decide)]
      exact hl2
  have hl4 : lookupStr t4 "fence" = some X := by
    cases ht4 with
    | inl he => rw [he]; exact hl3
    | inr he =>
        obtain ⟨v, he⟩ := he
        rw [he, lookupStr_setTok_ne _ _ (by decide)]
        exact hl3
  have hl5 := foldl_replaceMe_keeps hXne
    (if users.isEmpty = true then ["sheepdog", "fence", "ssj", "gateway"]
     else users) t4 hl4
  obtain ⟨did, u4, h4, h5⟩ := bind_eq_ok h
  have habs3 : (findSecret u3.store
      (secretName c.project c.envName "indexd-service")).isSome = false := by
    rw [hu3, hu2, hust, habs]
    rfl
  rw [run_createIfMissing_absent _ _ _ habs3] at h4
  simp only [Prod.mk.injEq, Except.ok.injEq] at h4
  obtain ⟨h4a, h4b⟩ := h4
  rw [run_pure] at h5
  simp only [Prod.mk.injEq, Except.ok.injEq] at h5
  obtain ⟨h5a, h5b⟩ := h5
  subst h5b
  refine ⟨List.map (fun kv => (kv.1, JSONValue.str kv.2))
      (List.foldl (fun acc u => if tokTruthy acc u then acc
        else setTok acc u "REPLACE_ME") t4
        (if users.isEmpty then ["sheepdog", "fence", "ssj", "gateway"]
         else users)), ?_, ?_⟩
  · rw [← h4b]
    exact findSecret_cons_self _ _ _
  · exact jsFieldList_map_str hl5

/-- A store holding only a prior-pass fence credential with password `XF`. -/
def stFence : SMState :=
  { store := [("omix3-test-fence", SecretValue.json
      (JSONValue.obj [("password", JSONValue.str "XF")]))],
    trace := [], ctr := 0 }

/-- Witness for C6: with the fence credential in the store from a prior
pass, the created `indexd-service` bundle maps `fence` to the stored
password. -/
theorem fence_token_reuse_witness :
    tokTruthy (staticTokens []) "fence" = false
    ∧ findSecret stFence.store (secretName "omix3" "test" "fence") =
        some (SecretValue.json (JSONValue.obj [("password", JSONValue.str "XF")]))
    ∧ ∃ payload,
        findSecret ((indexdServiceBlock ctxW [] [] [] none none stFence).2).store
            (secretName "omix3" "test" "indexd-service") =
          some (SecretValue.json (JSONValue.obj payload))
        ∧ jsFieldList payload "fence" = JSONValue.str "XF" :=
  ⟨rfl, rfl,
    fence_token_reuse ctxW [] [] [] none none stFence
      ((indexdServiceBlock ctxW [] [] [] none none stFence).1.toOption.getD [])
      ((indexdServiceBlock ctxW [] [] [] none none stFence).2) "XF"
      (by rfl) rfl
      (Or.inr ⟨rfl, JSONValue.obj [("password", JSONValue.str "XF")], rfl, rfl,
        by decide⟩)
      rfl⟩

/-! ### Decomposition of a successful handler run into its stages. -/

theorem handler_ok_decomp {ent : Nat → String} {regionEnv : Option String}
    {ev : HandlerEvent} {s : SMState} {r : HandlerResult} {t : SMState}
    (hne : ¬ ev.requestType = "Delete")
    (h : handler ent regionEnv ev s = (Except.ok r, t)) :
    ∃ hq s1 sc s2 md s3 wts s4 pel s5 man s6 aud s7 ipw s8 mpw s9 ssj s10 idx
      s11 jwt s12,
      resolveDb ev.props s = (Except.ok hq, s1)
      ∧ perServiceCreds ent (mkCtx ev.props hq) ev.props.services s1 =
          (Except.ok sc, s2)
      ∧ metadataG3autoBlock ent (mkCtx ev.props hq) ev.props.createFlags
          ev.props.g3auto sc.2 s2 = (Except.ok md, s3)
      ∧ wtsG3autoBlock ent (mkCtx ev.props hq) ev.props.createFlags
          ev.props.g3auto s3 = (Except.ok wts, s4)
      ∧ pelicanBlock (mkCtx ev.props hq) ev.props.createFlags ev.props.g3auto
          s4 = (Except.ok pel, s5)
      ∧ manifestBlock (mkCtx ev.props hq) ev.props.createFlags ev.props.g3auto
          s5 = (Except.ok man, s6)
      ∧ auditBlock (mkCtx ev.props hq) ev.props.createFlags ev.props.g3auto
          (regionOf ev.props.g3auto regionEnv) s6 = (Except.ok aud, s7)
      ∧ getDbPassword ev.props.project ev.props.envName sc.2 "index" s7 =
          (Except.ok ipw, s8)
      ∧ getDbPassword ev.props.project ev.props.envName sc.2 "metadata" s8 =
          (Except.ok mpw, s9)
      ∧ ssjBlock (mkCtx ev.props hq) ev.props.createFlags ev.props.g3auto
          (regionOf ev.props.g3auto regionEnv) ipw mpw s9 = (Except.ok ssj, s10)
      ∧ indexdServiceBlock (mkCtx ev.props hq) sc.2 ev.props.indexdServiceStatic
          ev.props.indexdServiceUsers ipw md.2 s10 = (Except.ok idx, s11)
      ∧ fenceJwtBlock ent (mkCtx ev.props hq) ev.props.createFlags s11 =
          (Except.ok jwt, s12)
      ∧ t = s12
      ∧ r = { physicalResourceId :=
                "gen3-secrets-" ++ ev.props.project ++ "-" ++ ev.props.envName,
              created := sc.1 ++ md.1 ++ wts ++ pel ++ man ++ aud ++ ssj ++ idx
                ++ jwt } := by
  unfold handler at h
  rw [if_neg hne] at h
  dsimp only at h
  obtain ⟨hq, s1, h1, h⟩ := bind_eq_ok h
  obtain ⟨sc, s2, h2, h⟩ := bind_eq_ok h
  obtain ⟨md, s3, h3, h⟩ := bind_eq_ok h
  obtain ⟨wts, s4, h4, h⟩ := bind_eq_ok h
  obtain ⟨pel, s5, h5, h⟩ := bind_eq_ok h
  obtain ⟨man, s6, h6, h⟩ := bind_eq_ok h
  obtain ⟨aud, s7, h7, h⟩ := bind_eq_ok h
  obtain ⟨ipw, s8, h8, h⟩ := bind_eq_ok h
  obtain ⟨mpw, s9, h9, h⟩ := bind_eq_ok h
  obtain ⟨ssj, s10, h10, h⟩ := bind_eq_ok h
  obtain ⟨idx, s11, h11, h⟩ := bind_eq_ok h
  obtain ⟨jwt, s12, h12, h⟩ := bind_eq_ok h
  rw [run_pure] at h
  simp only [Prod.mk.injEq, Except.ok.injEq] at h
  obtain ⟨hr, ht⟩ := h
  exact ⟨hq, s1, sc, s2, md, s3, wts, s4, pel, s5, man, s6, aud, s7, ipw, s8,
    mpw, s9, ssj, s10, idx, s11, jwt, s12, h1, h2, h3, h4, h5, h6, h7, h8, h9,
    h10, h11, h12, ht.symm, hr.symm⟩

/-! ### C7: deterministic naming -/

/-- Every secret name the handler can produce, as a pure function of the
project, environment and service list — no randomness enters any name. -/
def producedNames (p : HandlerProps) : List String :=
  p.services.map (fun svc => secretName p.project p.envName svc) ++
  [secretName p.project p.envName "metadata-g3auto",
   secretName p.project p.envName "wts-g3auto",
   secretName p.project p.envName "pelicanservice-g3auto",
   secretName p.project p.envName "manifestservice-g3auto",
   secretName p.project p.envName "audit-g3auto",
   secretName p.project p.envName "ssjdispatcher-creds",
   secretName p.project p.envName "indexd-service",
   secretName p.project p.envName "fence-jwt-key"]

theorem perService_created_sub {ent : Nat → String} {c : Ctx} :
    ∀ {svcs : List String} {s : SMState} {out : List String × List (String × String)}
      {t : SMState},
      perServiceCreds ent c svcs s = (Except.ok out, t) →
      ∀ n, n ∈ out.1 →
        n ∈ svcs.map (fun svc => secretName c.project c.envName svc) := by
  intro svcs
  induction svcs with
  | nil =>
      intro s out t h n hn
      unfold perServiceCreds at h
      rw [run_pure] at h
      simp only [Prod.mk.injEq, Except.ok.injEq] at h
      obtain ⟨h1, -⟩ := h
      rw [← h1] at hn
      cases hn
  | cons svc rest ih =>
      intro s out t h n hn
      unfold perServiceCreds at h
      dsimp only at h
      obtain ⟨pwd, u1, -, h⟩ := bind_eq_ok h
      obtain ⟨did, u2, -, h⟩ := bind_eq_ok h
      obtain ⟨restOut, u3, hrest, h⟩ := bind_eq_ok h
      rw [run_pure] at h
      simp only [Prod.mk.injEq, Except.ok.injEq] at h
      obtain ⟨h1, -⟩ := h
      rw [← h1] at hn
      simp only [List.map, List.mem_cons]
      cases did with
      | false =>
          simp only [if_neg] at hn
          exact Or.inr (ih hrest n (by simpa using hn))
      | true =>
          simp only [if_pos] at hn
          rcases (by simpa using hn : n = secretName c.project c.envName svc ∨
            n ∈ restOut.1) with he | hm
          · exact Or.inl he
          · exact Or.inr (ih hrest n hm)

theorem metadata_created_sub {ent : Nat → String} {c : Ctx} {flags : CreateFlags}
    {g : G3Auto} {cache : List (String × String)} {s : SMState}
    {out : List String × Option String} {t : SMState}
    (h : metadataG3autoBlock ent c flags g cache s = (Except.ok out, t)) :
    ∀ n, n ∈ out.1 → n = secretName c.project c.envName "metadata-g3auto" := by
  unfold metadataG3autoBlock at h
  split at h
  · split at h
    · dsimp only at h
      obtain ⟨dbp, u1, -, h⟩ := bind_eq_ok h
      obtain ⟨apwd, u2, -, h⟩ := bind_eq_ok h
      obtain ⟨did, u3, -, h⟩ := bind_eq_ok h
      rw [run_pure] at h
      simp only [Prod.mk.injEq, Except.ok.injEq] at h
      obtain ⟨h1, -⟩ := h
      intro n hn
      rw [← h1] at hn
      cases did with
      | false => simp at hn
      | true => simpa using hn
    · rw [run_throwSM] at h
      simp at h
  · rw [run_pure] at h
    simp only [Prod.mk.injEq, Except.ok.injEq] at h
    obtain ⟨h1, -⟩ := h
    intro n hn
    rw [← h1] at hn
    cases hn

theorem wts_created_sub {ent : Nat → String} {c : Ctx} {flags : CreateFlags}
    {g : G3Auto} {s : SMState} {out : List String} {t : SMState}
    (h : wtsG3autoBlock ent c flags g s = (Except.ok out, t)) :
    ∀ n, n ∈ out → n = secretName c.project c.envName "wts-g3auto" := by
  unfold wtsG3autoBlock at h
  split at h
  · split at h
    · dsimp only at h
      obtain ⟨ek, u1, -, h⟩ := bind_eq_ok h
      obtain ⟨sk, u2, -, h⟩ := bind_eq_ok h
      obtain ⟨did, u3, -, h⟩ := bind_eq_ok h
      rw [run_pure] at h
      simp only [Prod.mk.injEq, Except.ok.injEq] at h
      obtain ⟨h1, -⟩ := h
      intro n hn
      rw [← h1] at hn
      cases did with
      | false => simp at hn
      | true => simpa using hn
    · rw [run_throwSM] at h
      simp at h
  · rw [run_pure] at h
    simp only [Prod.mk.injEq, Except.ok.injEq] at h
    obtain ⟨h1, -⟩ := h
    intro n hn
    rw [← h1] at hn
    cases hn

theorem pelican_created_sub {c : Ctx} {flags : CreateFlags} {g : G3Auto}
    {s : SMState} {out : List String} {t : SMState}
    (h : pelicanBlock c flags g s = (Except.ok out, t)) :
    ∀ n, n ∈ out → n = secretName c.project c.envName "pelicanservice-g3auto" := by
  unfold pelicanBlock at h
  split at h
  · split at h
    · dsimp only at h
      obtain ⟨did, u1, -, h⟩ := bind_eq_ok h
      rw [run_pure] at h
      simp only [Prod.mk.injEq, Except.ok.injEq] at h
      obtain ⟨h1, -⟩ := h
      intro n hn
      rw [← h1] at hn
      cases did with
      | false => simp at hn
      | true => simpa using hn
    · rw [run_throwSM] at h
      simp at h
  · rw [run_pure] at h
    simp only [Prod.mk.injEq, Except.ok.injEq] at h
    obtain ⟨h1, -⟩ := h
    intro n hn
    rw [← h1] at hn
    cases hn

theorem manifest_created_sub {c : Ctx} {flags : CreateFlags} {g : G3Auto}
    {s : SMState} {out : List String} {t : SMState}
    (h : manifestBlock c flags g s = (Except.ok out, t)) :
    ∀ n, n ∈ out → n = secretName c.project c.envName "manifestservice-g3auto" := by
  unfold manifestBlock at h
  split at h
  · split at h
    · dsimp only at h
      obtain ⟨did, u1, -, h⟩ := bind_eq_ok h
      rw [run_pure] at h
      simp only [Prod.mk.injEq, Except.ok.injEq] at h
      obtain ⟨h1, -⟩ := h
      intro n hn
      rw [← h1] at hn
      cases did with
      | false => simp at hn
      | true => simpa using hn
    · rw [run_throwSM] at h
      simp at h
  · rw [run_pure] at h
    simp only [Prod.mk.injEq, Except.ok.injEq] at h
    obtain ⟨h1, -⟩ := h
    intro n hn
    rw [← h1] at hn
    cases hn

theorem audit_created_sub {c : Ctx} {flags : CreateFlags} {g : G3Auto}
    {region : String} {s : SMState} {out : List String} {t : SMState}
    (h : auditBlock c flags g region s = (Except.ok out, t)) :
    ∀ n, n ∈ out → n = secretName c.project c.envName "audit-g3auto" := by
  unfold auditBlock at h
  split at h
  · split at h
    · dsimp only at h
      obtain ⟨did, u1, -, h⟩ := bind_eq_ok h
      rw [run_pure] at h
      simp only [Prod.mk.injEq, Except.ok.injEq] at h
      obtain ⟨h1, -⟩ := h
      intro n hn
      rw [← h1] at hn
      cases did with
      | false => simp at hn
      | true => simpa using hn
    · rw [run_throwSM] at h
      simp at h
  · rw [run_pure] at h
    simp only [Prod.mk.injEq, Except.ok.injEq] at h
    obtain ⟨h1, -⟩ := h
    intro n hn
    rw [← h1] at hn
    cases hn

theorem ssj_created_sub {c : Ctx} {flags : CreateFlags} {g : G3Auto}
    {region : String} {ipw mpw : Option String} {s : SMState}
    {out : List String} {t : SMState}
    (h : ssjBlock c flags g region ipw mpw s = (Except.ok out, t)) :
    ∀ n, n ∈ out → n = secretName c.project c.envName "ssjdispatcher-creds" := by
  unfold ssjBlock at h
  split at h
  · split at h
    · dsimp only at h
      obtain ⟨did, u1, -, h⟩ := bind_eq_ok h
      rw [run_pure] at h
      simp only [Prod.mk.injEq, Except.ok.injEq] at h
      obtain ⟨h1, -⟩ := h
      intro n hn
      rw [← h1] at hn
      cases did with
      | false => simp at hn
      | true => simpa using hn
    · rw [run_throwSM] at h
      simp at h
  · rw [run_pure] at h
    simp only [Prod.mk.injEq, Except.ok.injEq] at h
    obtain ⟨h1, -⟩ := h
    intro n hn
    rw [← h1] at hn
    cases hn

theorem indexd_created_sub {c : Ctx} {cache : List (String × String)}
    {stat : List (String × JSONValue)} {users : List String}
    {ipw gw : Option String} {s : SMState} {out : List String} {t : SMState}
    (h : indexdServiceBlock c cache stat users ipw gw s = (Except.ok out, t)) :
    ∀ n, n ∈ out → n = secretName c.project c.envName "indexd-service" := by
  unfold indexdServiceBlock at h
  dsimp only at h
  obtain ⟨t1, u1, -, h⟩ := bind_eq_ok h
  obtain ⟨t2, u2, -, h⟩ := bind_eq_ok h
  obtain ⟨t4, u3, -, h⟩ := bind_eq_ok h
  obtain ⟨did, u4, -, h⟩ := bind_eq_ok h
  rw [run_pure] at h
  simp only [Prod.mk.injEq, Except.ok.injEq] at h
  obtain ⟨h1, -⟩ := h
  intro n hn
  rw [← h1] at hn
  cases did with
  | false => simp at hn
  | true => simpa using hn

theorem jwt_created_sub {ent : Nat → String} {c : Ctx} {flags : CreateFlags}
    {s : SMState} {out : List String} {t : SMState}
    (h : fenceJwtBlock ent c flags s = (Except.ok out, t)) :
    ∀ n, n ∈ out → n = secretName c.project c.envName "fence-jwt-key" := by
  unfold fenceJwtBlock at h
  split at h
  · dsimp only at h
    obtain ⟨pem, u1, -, h⟩ := bind_eq_ok h
    obtain ⟨did, u2, -, h⟩ := bind_eq_ok h
    rw [run_pure] at h
    simp only [Prod.mk.injEq, Except.ok.injEq] at h
    obtain ⟨h1, -⟩ := h
    intro n hn
    rw [← h1] at hn
    cases did with
    | false => simp at hn
    | true => simpa using hn
  · rw [run_pure] at h
    simp only [Prod.mk.injEq, Except.ok.injEq] at h
    obtain ⟨h1, -⟩ := h
    intro n hn
    rw [← h1] at hn
    cases hn

/-- C7: for fixed `(project, envName)` every secret name the handler
produces lies in `producedNames` — a pure function of the two identifiers,
the bundle kind and (for per-service credentials) the service name, with no
randomness; and the audit bundle secret name is
`<project>-<env>-audit-g3auto`. -/
theorem deterministic_naming :
    (∀ ent regionEnv ev s r t,
        handler ent regionEnv ev s = (Except.ok r, t) →
        ∀ n, n ∈ r.created → n ∈ producedNames ev.props)
    ∧ (∀ project envName,
        secretName project envName "audit-g3auto" =
          project ++ "-" ++ envName ++ "-audit-g3auto") := by
  constructor
  · intro ent regionEnv ev s r t h n hn
    by_cases hdel : ev.requestType = "Delete"
    · rw [delete_is_noop ent regionEnv ev s hdel] at h
      simp only [Prod.mk.injEq, Except.ok.injEq] at h
      obtain ⟨h1, -⟩ := h
      rw [← h1] at hn
      cases hn
    · obtain ⟨hq, s1, sc, s2, md, s3, wts, s4, pel, s5, man, s6, aud, s7, ipw,
        s8, mpw, s9, ssj, s10, idx, s11, jwt, s12, h1, h2, h3, h4, h5, h6, h7,
        h8, h9, h10, h11, h12, ht, hr⟩ := handler_ok_decomp hdel h
      rw [hr] at hn
      dsimp only at hn
      unfold producedNames
      simp only [List.mem_append] at hn
      rcases hn with ((((((((hn | hn) | hn) | hn) | hn) | hn) | hn) | hn) | hn)
      · simp only [List.mem_append]
        exact Or.inl (perService_created_sub h2 n hn)
      · simp [metadata_created_sub h3 n hn, secretName, mkCtx]
      · simp [wts_created_sub h4 n hn, secretName, mkCtx]
      · simp [pelican_created_sub h5 n hn, secretName, mkCtx]
      · simp [manifest_created_sub h6 n hn, secretName, mkCtx]
      · simp [audit_created_sub h7 n hn, secretName, mkCtx]
      · simp [ssj_created_sub h10 n hn, secretName, mkCtx]
      · simp [indexd_created_sub h11 n hn, secretName, mkCtx]
      · simp [jwt_created_sub h12 n hn, secretName, mkCtx]
  · intro project envName
    unfold secretName
    rw [String.append_assoc]
    rfl

/-- Witness for C7: in the concrete scenario run, the created name
`omix3-test-index` is among the deterministically derived names. -/
theorem deterministic_naming_witness :
    "omix3-test-index" ∈ producedNames propsW :=
  deterministic_naming.1 entW none evW stW
    ((handler entW none evW stW).1.toOption.getD
      { physicalResourceId := "", created := [] })
    ((handler entW none evW stW).2) (by rfl) "omix3-test-index" (by decide)

/-! ### C2: supporting lemmas for the idempotence argument -/

theorem lookupStr_mem : ∀ {l : List (String × String)} {k v : String},
    lookupStr l k = some v → (k, v) ∈ l := by
  intro l
  induction l with
  | nil => intro k v h; cases h
  | cons kv rest ih =>
      intro k v h
      unfold lookupStr at h
      by_cases hk : kv.1 = k
      · rw [if_pos hk] at h
        cases h
        rw [← hk]
        exact List.mem_cons_self _ _
      · rw [if_neg hk] at h
        exact List.mem_cons_of_mem _ (ih h)

theorem tokTruthy_setTok_ne {l : List (String × String)} {k k' : String}
    (v : String) (h : k ≠ k') :
    tokTruthy (setTok l k v) k' = tokTruthy l k' := by
  unfold tokTruthy
  rw [lookupStr_setTok_ne _ _ h]

theorem secretName_inj {p e a b : String}
    (h : secretName p e a = secretName p e b) : a = b := by
  unfold secretName at h
  have hd := congrArg String.data h
  simp only [String.data_append] at hd
  have := List.append_cancel_left hd
  cases a
  cases b
  simp at this
  rw [this]

theorem getSecretJson_ok_inv {name : String} {s : SMState} {v : JSONValue}
    {t : SMState} (h : getSecretJson name s = (Except.ok v, t)) :
    findSecret s.store name = some (SecretValue.json v)
      ∧ t.store = s.store ∧ t.ctr = s.ctr := by
  unfold getSecretJson at h
  cases hf : findSecret s.store name with
  | none =>
      rw [hf] at h
      simp at h
  | some w =>
      cases w with
      | json j =>
          rw [hf] at h
          simp only [Prod.mk.injEq, Except.ok.injEq] at h
          obtain ⟨h1, h2⟩ := h
          subst h2
          have h1' : (some (SecretValue.json j) : Option SecretValue) =
              some (SecretValue.json v) := by rw [h1]
          exact ⟨h1', rfl, rfl⟩
      | plain str =>
          rw [hf] at h
          simp at h

theorem tryGet_ok_fwd {name : String} {s : SMState}
    (h : JsonOrAbsent s.store name) :
    ∃ res t, tryGetSecretJson name s = (Except.ok res, t)
      ∧ t.store = s.store ∧ t.ctr = s.ctr := by
  cases hf : findSecret s.store name with
  | none => exact ⟨none, _, run_tryGet_none hf, rfl, rfl⟩
  | some v =>
      cases v with
      | json j => exact ⟨some j, _, run_tryGet_json hf, rfl, rfl⟩
      | plain str => exact absurd hf (h str)

theorem tryGet_ok_jsonOrAbsent {name : String} {s : SMState}
    {res : Option JSONValue} {u : SMState}
    (h : tryGetSecretJson name s = (Except.ok res, u)) :
    JsonOrAbsent s.store name := by
  intro str hc
  unfold tryGetSecretJson at h
  rw [hc] at h
  simp at h

theorem fenceTokenStep_ok_inv {c : Ctx} {cache t0 : List (String × String)}
    {s : SMState} {t1 : List (String × String)} {u : SMState}
    (h : fenceTokenStep c cache t0 s = (Except.ok t1, u)) :
    u.store = s.store ∧ (t1 = t0 ∨ ∃ v, t1 = setTok t0 "fence" v)
    ∧ (tokTruthy t0 "fence" = false →
        cacheTruthy cache "fence" = true ∨
          JsonOrAbsent s.store (secretName c.project c.envName "fence")) := by
  unfold fenceTokenStep at h
  split at h
  · rename_i hcond
    rw [run_pure] at h
    simp only [Prod.mk.injEq, Except.ok.injEq] at h
    obtain ⟨h1, h2⟩ := h
    subst h1
    subst h2
    refine ⟨rfl, Or.inl rfl, fun hfa => ?_⟩
    rw [hfa] at hcond
    cases hcond
  · obtain ⟨f, u0, hg, hp⟩ := bind_eq_ok h
    obtain ⟨hst, hctr, hinv⟩ := getDbPassword_ok_inv hg
    rw [run_pure] at hp
    simp only [Prod.mk.injEq, Except.ok.injEq] at hp
    obtain ⟨h1, h2⟩ := hp
    subst h2
    refine ⟨hst, ?_, fun _ => hinv⟩
    cases f with
    | some fv => exact Or.inr ⟨fv, h1.symm⟩
    | none => exact Or.inl h1.symm

theorem sheepdog_read_inv {c : Ctx} {cache t1 : List (String × String)}
    {s : SMState} {t2 : List (String × String)} {u : SMState}
    (h : sheepdogTokenStep c cache t1 s = (Except.ok t2, u)) :
    tokTruthy t1 "sheepdog" = false →
      cacheTruthy cache "sheepdog" = true ∨
        JsonOrAbsent s.store (secretName c.project c.envName "sheepdog") := by
  intro hfa
  unfold sheepdogTokenStep at h
  rw [hfa] at h
  rw [if_neg (by simp)] at h
  obtain ⟨f, u0, hg, hp⟩ := bind_eq_ok h
  exact (getDbPassword_ok_inv hg).2.2

theorem gateway_read_inv {c : Ctx} {gatewayGen : Option String}
    {t3 : List (String × String)} {s : SMState} {t4 : List (String × String)}
    {u : SMState} (h : gatewayTokenStep c gatewayGen t3 s = (Except.ok t4, u)) :
    tokTruthy t3 "gateway" = false → optTruthy gatewayGen = false →
      JsonOrAbsent s.store (secretName c.project c.envName "metadata-g3auto") := by
  intro hfa hgg
  unfold gatewayTokenStep at h
  rw [hfa] at h
  rw [if_neg (by simp)] at h
  rw [hgg] at h
  rw [if_neg (by simp)] at h
  obtain ⟨meta, u0, hg, hp⟩ := bind_eq_ok h
  exact tryGet_ok_jsonOrAbsent hg

/-! Forward (second-run) lemmas for the token steps: the step succeeds
without touching the store when its read target is JSON-or-absent. -/

theorem fenceTokenStep_fwd {c : Ctx} {cache t0 : List (String × String)}
    {s : SMState}
    (hsafe : tokTruthy t0 "fence" = false →
      cacheTruthy cache "fence" = true ∨
        JsonOrAbsent s.store (secretName c.project c.envName "fence")) :
    ∃ t1 u, fenceTokenStep c cache t0 s = (Except.ok t1, u)
      ∧ u.store = s.store ∧ u.ctr = s.ctr
      ∧ (t1 = t0 ∨ ∃ v, t1 = setTok t0 "fence" v) := by
  unfold fenceTokenStep
  by_cases hc : tokTruthy t0 "fence" = true
  · rw [if_pos hc]
    exact ⟨t0, s, rfl, rfl, rfl, Or.inl rfl⟩
  · have hc' : tokTruthy t0 "fence" = false := by
      cases hv : tokTruthy t0 "fence"
      · rfl
      · exact absurd hv hc
    rw [if_neg (by simp [hc'])]
    obtain ⟨res, u, hrun, hst, hctr⟩ := getDbPassword_ok (hsafe hc')
    cases res with
    | some fv =>
        exact ⟨setTok t0 "fence" fv, u, by rw [run_bind, hrun]; rfl, hst, hctr,
          Or.inr ⟨fv, rfl⟩⟩
    | none =>
        exact ⟨t0, u, by rw [run_bind, hrun]; rfl, hst, hctr, Or.inl rfl⟩

theorem sheepdogTokenStep_fwd {c : Ctx} {cache t1 : List (String × String)}
    {s : SMState}
    (hsafe : tokTruthy t1 "sheepdog" = false →
      cacheTruthy cache "sheepdog" = true ∨
        JsonOrAbsent s.store (secretName c.project c.envName "sheepdog")) :
    ∃ t2 u, sheepdogTokenStep c cache t1 s = (Except.ok t2, u)
      ∧ u.store = s.store ∧ u.ctr = s.ctr
      ∧ (t2 = t1 ∨ ∃ v, t2 = setTok t1 "sheepdog" v) := by
  unfold sheepdogTokenStep
  by_cases hc : tokTruthy t1 "sheepdog" = true
  · rw [if_pos hc]
    exact ⟨t1, s, rfl, rfl, rfl, Or.inl rfl⟩
  · have hc' : tokTruthy t1 "sheepdog" = false := by
      cases hv : tokTruthy t1 "sheepdog"
      · rfl
      · exact absurd hv hc
    rw [if_neg (by simp [hc'])]
    obtain ⟨res, u, hrun, hst, hctr⟩ := getDbPassword_ok (hsafe hc')
    cases res with
    | some sv =>
        exact ⟨setTok t1 "sheepdog" sv, u, by rw [run_bind, hrun]; rfl, hst, hctr,
          Or.inr ⟨sv, rfl⟩⟩
    | none =>
        exact ⟨t1, u, by rw [run_bind, hrun]; rfl, hst, hctr, Or.inl rfl⟩

theorem gatewayTokenStep_fwd {c : Ctx} {gatewayGen : Option String}
    {t3 : List (String × String)} {s : SMState}
    (hsafe : tokTruthy t3 "gateway" = false → optTruthy gatewayGen = false →
      JsonOrAbsent s.store (secretName c.project c.envName "metadata-g3auto")) :
    ∃ t4 u, gatewayTokenStep c gatewayGen t3 s = (Except.ok t4, u)
      ∧ u.store = s.store ∧ u.ctr = s.ctr := by
  unfold gatewayTokenStep
  by_cases hc : tokTruthy t3 "gateway" = true
  · rw [if_pos hc]
    exact ⟨t3, s, rfl, rfl, rfl⟩
  · have hc' : tokTruthy t3 "gateway" = false := by
      cases hv : tokTruthy t3 "gateway"
      · rfl
      · exact absurd hv hc
    rw [if_neg (by simp [hc'])]
    by_cases hg : optTruthy gatewayGen = true
    · rw [if_pos hg]
      exact ⟨_, s, rfl, rfl, rfl⟩
    · have hg' : optTruthy gatewayGen = false := by
        cases hv : optTruthy gatewayGen
        · rfl
        · exact absurd hv hg
      rw [if_neg (by simp [hg'])]
      obtain ⟨res, u, hrun, hst, hctr⟩ := tryGet_ok_fwd (hsafe hc' hg')
      cases res with
      | none => exact ⟨t3, u, by rw [run_bind, hrun]; rfl, hst, hctr⟩
      | some m =>
          exact ⟨(match (if jsTruthy m = true then
              extractGatewayFromMetadataG3auto m else none : Option String) with
            | some gv => if gv = "" then t3 else setTok t3 "gateway" gv
            | none => t3), u, by rw [run_bind, hrun]; rfl, hst, hctr⟩

/-! Second-run lemmas: with every target already present and every read
name JSON-or-absent, each stage succeeds without touching the store and
creates nothing. -/

theorem fetchDbCoords_again {p : HandlerProps} {s : SMState}
    {hq0 : JSONValue × JSONValue} {u : SMState} {S : SMState}
    (h : fetchDbCoords p s = (Except.ok hq0, u))
    (hle : StoreLe s.store S.store) :
    ∃ u', fetchDbCoords p S = (Except.ok hq0, u') ∧ u'.store = S.store
      ∧ u'.ctr = S.ctr := by
  unfold fetchDbCoords at h ⊢
  by_cases hov : (jsTruthy (overrideCoords p).1 && jsTruthy (overrideCoords p).2)
      = true
  · rw [if_pos hov] at h ⊢
    rw [run_pure] at h
    simp only [Prod.mk.injEq, Except.ok.injEq] at h
    obtain ⟨h1, h2⟩ := h
    exact ⟨S, by rw [run_pure, h1], rfl, rfl⟩
  · rw [if_neg hov] at h ⊢
    obtain ⟨m, u0, hg, hp⟩ := bind_eq_ok h
    obtain ⟨hfind, hst, hctr⟩ := getSecretJson_ok_inv hg
    rw [run_pure] at hp
    simp only [Prod.mk.injEq, Except.ok.injEq] at hp
    obtain ⟨h1, h2⟩ := hp
    have hfindS : findSecret S.store p.masterSecretName =
        some (SecretValue.json m) := hle _ _ hfind
    refine ⟨{ S with trace := StoreOp.read p.masterSecretName :: S.trace },
      ?_, rfl, rfl⟩
    rw [run_bind, run_getSecretJson_json hfindS]
    dsimp only
    rw [run_pure, h1]

theorem resolveDb_again {p : HandlerProps} {s : SMState}
    {hq : JSONValue × JSONValue} {u : SMState} {S : SMState}
    (h : resolveDb p s = (Except.ok hq, u)) (hle : StoreLe s.store S.store) :
    ∃ u', resolveDb p S = (Except.ok hq, u') ∧ u'.store = S.store
      ∧ u'.ctr = S.ctr := by
  unfold resolveDb at h ⊢
  obtain ⟨hq0, u0, hf, hjp⟩ := bind_eq_ok h
  by_cases hc : (jsTruthy hq0.1 && jsTruthy hq0.2) = true
  · rw [if_pos hc] at hjp
    rw [run_pure] at hjp
    simp only [Prod.mk.injEq, Except.ok.injEq] at hjp
    obtain ⟨h1, h2⟩ := hjp
    obtain ⟨u', hrun, hst, hctr⟩ := fetchDbCoords_again hf hle
    refine ⟨u', ?_, hst, hctr⟩
    rw [run_bind, hrun]
    dsimp only
    rw [if_pos hc, run_pure, h1]
  · rw [if_neg hc] at hjp
    rw [run_throwSM] at hjp
    simp at hjp

theorem perService_noop {ent : Nat → String} {c : Ctx} :
    ∀ {svcs : List String} {S : SMState},
      (∀ svc, svc ∈ svcs →
        (findSecret S.store (secretName c.project c.envName svc)).isSome = true) →
      ∃ t, perServiceCreds ent c svcs S = (Except.ok ([], []), t)
        ∧ t.store = S.store := by
  intro svcs
  induction svcs with
  | nil =>
      intro S hp
      exact ⟨S, by unfold perServiceCreds; rfl, rfl⟩
  | cons svc rest ih =>
      intro S hp
      have h1 : (findSecret S.store (secretName c.project c.envName svc)).isSome
          = true := hp svc (List.mem_cons_self _ _)
      obtain ⟨t, hrec, hst⟩ :=
        @ih ⟨S.store,
              StoreOp.describe (secretName c.project c.envName svc) :: S.trace,
              S.ctr + 1⟩
          (fun sv hm => hp sv (List.mem_cons_of_mem _ hm))
      refine ⟨t, ?_, hst⟩
      unfold perServiceCreds
      simp only [run_bind, run_randomAlnum, run_createIfMissing_present, h1,
        hrec, run_pure]
      rfl

theorem metadataDbPasswordStep_fwd {ent : Nat → String} {c : Ctx}
    {cache : List (String × String)} {S : SMState}
    (hread : cacheTruthy cache "metadata" = true ∨
      JsonOrAbsent S.store (secretName c.project c.envName "metadata")) :
    ∃ dbp u, metadataDbPasswordStep ent c cache S = (Except.ok dbp, u)
      ∧ u.store = S.store := by
  unfold metadataDbPasswordStep
  obtain ⟨res, u, hrun, hst, hctr⟩ := getDbPassword_ok hread
  cases res with
  | some d =>
      exact ⟨d, u, by rw [run_bind, hrun]; rfl, hst⟩
  | none =>
      refine ⟨ent u.ctr, { u with ctr := u.ctr + 1 }, ?_, hst⟩
      rw [run_bind, hrun]
      rfl

theorem metadata_noop {ent : Nat → String} {c : Ctx} {flags : CreateFlags}
    {g : G3Auto} {cache : List (String × String)} {S : SMState}
    (hp : flags.metadataG3auto = true → optTruthy g.hostname = true
      ∧ (findSecret S.store
          (secretName c.project c.envName "metadata-g3auto")).isSome = true
      ∧ (cacheTruthy cache "metadata" = true ∨
          JsonOrAbsent S.store (secretName c.project c.envName "metadata"))) :
    ∃ gw t, metadataG3autoBlock ent c flags g cache S = (Except.ok ([], gw), t)
      ∧ t.store = S.store ∧ (flags.metadataG3auto = false → gw = none) := by
  by_cases hf : flags.metadataG3auto = true
  · obtain ⟨hh, hpre, hread⟩ := hp hf
    obtain ⟨dbp, u, hstep, hust⟩ := @metadataDbPasswordStep_fwd ent c cache S
      hread
    have hpre2 : (findSecret u.store
        (secretName c.project c.envName "metadata-g3auto")).isSome = true := by
      rw [hust]
      exact hpre
    unfold metadataG3autoBlock
    rw [hf, hh]
    simp only [run_bind, hstep, run_randomAlnum, run_createIfMissing_present,
      hpre2, run_pure, if_pos]
    refine ⟨some (ent u.ctr), _, rfl, ?_, ?_⟩
    · exact hust
    · intro hff
      exact absurd hff.symm Bool.false_ne_true
  · have hf' : flags.metadataG3auto = false := by
      cases hv : flags.metadataG3auto
      · rfl
      · exact absurd hv hf
    unfold metadataG3autoBlock
    rw [hf']
    exact ⟨none, S, rfl, rfl, fun _ => rfl⟩

theorem wts_noop {ent : Nat → String} {c : Ctx} {flags : CreateFlags}
    {g : G3Auto} {S : SMState}
    (hp : flags.wtsG3auto = true → optTruthy g.hostname = true
      ∧ (findSecret S.store
          (secretName c.project c.envName "wts-g3auto")).isSome = true) :
    ∃ t, wtsG3autoBlock ent c flags g S = (Except.ok [], t)
      ∧ t.store = S.store := by
  by_cases hf : flags.wtsG3auto = true
  · obtain ⟨hh, hpre⟩ := hp hf
    unfold wtsG3autoBlock
    rw [hf, hh]
    simp only [run_bind, run_randomBase64, run_createIfMissing_present, hpre,
      run_pure, if_pos]
    exact ⟨_, rfl, rfl⟩
  · have hf' : flags.wtsG3auto = false := by
      cases hv : flags.wtsG3auto
      · rfl
      · exact absurd hv hf
    unfold wtsG3autoBlock
    rw [hf']
    exact ⟨S, rfl, rfl⟩

theorem pelican_noop {c : Ctx} {flags : CreateFlags} {g : G3Auto} {S : SMState}
    (hp : flags.pelicanserviceG3auto = true →
      (optTruthy g.hostname && optTruthy g.pelicanBucketName) = true
      ∧ (findSecret S.store
          (secretName c.project c.envName "pelicanservice-g3auto")).isSome = true) :
    ∃ t, pelicanBlock c flags g S = (Except.ok [], t) ∧ t.store = S.store := by
  by_cases hf : flags.pelicanserviceG3auto = true
  · obtain ⟨hh, hpre⟩ := hp hf
    unfold pelicanBlock
    rw [hf, hh]
    simp only [run_bind, run_createIfMissing_present, hpre, run_pure, if_pos]
    exact ⟨_, rfl, rfl⟩
  · have hf' : flags.pelicanserviceG3auto = false := by
      cases hv : flags.pelicanserviceG3auto
      · rfl
      · exact absurd hv hf
    unfold pelicanBlock
    rw [hf']
    exact ⟨S, rfl, rfl⟩

theorem manifest_noop {c : Ctx} {flags : CreateFlags} {g : G3Auto} {S : SMState}
    (hp : flags.manifestserviceG3auto = true →
      (optTruthy g.hostname && optTruthy g.manifestBucketName) = true
      ∧ (findSecret S.store
          (secretName c.project c.envName "manifestservice-g3auto")).isSome = true) :
    ∃ t, manifestBlock c flags g S = (Except.ok [], t) ∧ t.store = S.store := by
  by_cases hf : flags.manifestserviceG3auto = true
  · obtain ⟨hh, hpre⟩ := hp hf
    unfold manifestBlock
    rw [hf, hh]
    simp only [run_bind, run_createIfMissing_present, hpre, run_pure, if_pos]
    exact ⟨_, rfl, rfl⟩
  · have hf' : flags.manifestserviceG3auto = false := by
      cases hv : flags.manifestserviceG3auto
      · rfl
      · exact absurd hv hf
    unfold manifestBlock
    rw [hf']
    exact ⟨S, rfl, rfl⟩

theorem audit_noop {c : Ctx} {flags : CreateFlags} {g : G3Auto}
    {region : String} {S : SMState}
    (hp : flags.auditGen3auto = true → optTruthy g.auditSqsUrl = true
      ∧ (findSecret S.store
          (secretName c.project c.envName "audit-g3auto")).isSome = true) :
    ∃ t, auditBlock c flags g region S = (Except.ok [], t)
      ∧ t.store = S.store := by
  by_cases hf : flags.auditGen3auto = true
  · obtain ⟨hh, hpre⟩ := hp hf
    unfold auditBlock
    rw [hf, hh]
    simp only [run_bind, run_createIfMissing_present, hpre, run_pure, if_pos]
    exact ⟨_, rfl, rfl⟩
  · have hf' : flags.auditGen3auto = false := by
      cases hv : flags.auditGen3auto
      · rfl
      · exact absurd hv hf
    unfold auditBlock
    rw [hf']
    exact ⟨S, rfl, rfl⟩

theorem ssj_noop {c : Ctx} {flags : CreateFlags} {g : G3Auto}
    {region : String} {ipw mpw : Option String} {S : SMState}
    (hp : flags.ssjdispatcherCreds = true → optTruthy g.ssjSqsUrl = true
      ∧ (findSecret S.store
          (secretName c.project c.envName "ssjdispatcher-creds")).isSome = true) :
    ∃ t, ssjBlock c flags g region ipw mpw S = (Except.ok [], t)
      ∧ t.store = S.store := by
  by_cases hf : flags.ssjdispatcherCreds = true
  · obtain ⟨hh, hpre⟩ := hp hf
    unfold ssjBlock
    rw [hf, hh]
    simp only [run_bind, run_createIfMissing_present, hpre, run_pure, if_pos]
    exact ⟨_, rfl, rfl⟩
  · have hf' : flags.ssjdispatcherCreds = false := by
      cases hv : flags.ssjdispatcherCreds
      · rfl
      · exact absurd hv hf
    unfold ssjBlock
    rw [hf']
    exact ⟨S, rfl, rfl⟩

theorem jwt_noop {ent : Nat → String} {c : Ctx} {flags : CreateFlags}
    {S : SMState}
    (hp : flags.fenceJwtPrivateKey = true →
      (findSecret S.store
        (secretName c.project c.envName "fence-jwt-key")).isSome = true) :
    ∃ t, fenceJwtBlock ent c flags S = (Except.ok [], t)
      ∧ t.store = S.store := by
  by_cases hf : flags.fenceJwtPrivateKey = true
  · have hpre := hp hf
    unfold fenceJwtBlock
    rw [hf]
    simp only [run_bind, run_generateRsaPrivateKeyPem,
      run_createPlainIfMissing_present, hpre, run_pure, if_pos]
    exact ⟨_, rfl, rfl⟩
  · have hf' : flags.fenceJwtPrivateKey = false := by
      cases hv : flags.fenceJwtPrivateKey
      · rfl
      · exact absurd hv hf
    unfold fenceJwtBlock
    rw [hf']
    exact ⟨S, rfl, rfl⟩

theorem indexd_noop {c : Ctx} {cache : List (String × String)}
    {stat : List (String × JSONValue)} {users : List String}
    {ipw gw : Option String} {S : SMState}
    (hpre : (findSecret S.store
      (secretName c.project c.envName "indexd-service")).isSome = true)
    (hF : tokTruthy (staticTokens stat) "fence" = false →
      cacheTruthy cache "fence" = true ∨
        JsonOrAbsent S.store (secretName c.project c.envName "fence"))
    (hS : tokTruthy (staticTokens stat) "sheepdog" = false →
      cacheTruthy cache "sheepdog" = true ∨
        JsonOrAbsent S.store (secretName c.project c.envName "sheepdog"))
    (hG : tokTruthy (staticTokens stat) "gateway" = false →
      optTruthy gw = false →
        JsonOrAbsent S.store (secretName c.project c.envName "metadata-g3auto")) :
    ∃ t, indexdServiceBlock c cache stat users ipw gw S = (Except.ok [], t)
      ∧ t.store = S.store := by
  unfold indexdServiceBlock
  dsimp only
  obtain ⟨t1, u1, h1, hst1, hctr1, hsh1⟩ := fenceTokenStep_fwd hF
  have hS1 : tokTruthy t1 "sheepdog" = false →
      cacheTruthy cache "sheepdog" = true ∨
        JsonOrAbsent u1.store (secretName c.project c.envName "sheepdog") := by
    intro hx
    rw [hst1]
    apply hS
    cases hsh1 with
    | inl he =>
        rw [← he]
        exact hx
    | inr he =>
        obtain ⟨v, he⟩ := he
        rw [he, tokTruthy_setTok_ne _ (by decide)] at hx
        exact hx
  obtain ⟨t2, u2, h2, hst2, hctr2, hsh2⟩ := sheepdogTokenStep_fwd hS1
  have hgw0 : tokTruthy t2 "gateway" = tokTruthy (staticTokens stat) "gateway" := by
    have e1 : tokTruthy t1 "gateway" = tokTruthy (staticTokens stat) "gateway" := by
      cases hsh1 with
      | inl he => rw [he]
      | inr he =>
          obtain ⟨v, he⟩ := he
          rw [he, tokTruthy_setTok_ne _ (by decide)]
    cases hsh2 with
    | inl he => rw [he]; exact e1
    | inr he =>
        obtain ⟨v, he⟩ := he
        rw [he, tokTruthy_setTok_ne _ (by decide)]
        exact e1
  have hG3 : tokTruthy (if tokTruthy t2 "ssj" = true then t2
        else setTok t2 "ssj" (jsOr ipw "REPLACE_ME")) "gateway" = false →
      optTruthy gw = false →
        JsonOrAbsent u2.store
          (secretName c.project c.envName "metadata-g3auto") := by
    intro hx hy
    rw [hst2, hst1]
    apply hG _ hy
    rw [← hgw0]
    by_cases hssj : tokTruthy t2 "ssj" = true
    · rw [if_pos hssj] at hx
      exact hx
    · rw [if_neg hssj, tokTruthy_setTok_ne _ (by decide)] at hx
      exact hx
  obtain ⟨t4, u3, h3, hst3, hctr3⟩ := gatewayTokenStep_fwd hG3
  have hpre3 : (findSecret u3.store
      (secretName c.project c.envName "indexd-service")).isSome = true := by
    rw [hst3, hst2, hst1]
    exact hpre
  simp only [run_bind, h1, h2, h3, run_createIfMissing_present, hpre3,
    run_pure]
  refine ⟨_, rfl, ?_⟩
  rw [hst3, hst2, hst1]

/-! First-run facts: a successful pass leaves every name it targets present,
reports truthy preconditions for every enabled bundle, and read only names
that were in the in-pass cache or stored as JSON. -/

theorem ext_out {pl : List String} {α : Type} {m : SM α} (hm : Ext pl m)
    {s : SMState} {r : Except String α} {t : SMState} (h : m s = (r, t)) :
    StoreLe s.store t.store ∧ PlainFreshOnly pl s.store t.store := hm s r t h

theorem fresh_jsonOrAbsent {pl : List String}
    {a b : List (String × SecretValue)} {n : String}
    (hab : PlainFreshOnly pl a b) (ha : findSecret a n = none) (hn : n ∉ pl) :
    JsonOrAbsent b n := fun str hb => hn (hab n str ha hb)

theorem storeLe_isSome {a b : List (String × SecretValue)} {n : String}
    (hle : StoreLe a b) (h : (findSecret a n).isSome = true) :
    (findSecret b n).isSome = true := by
  cases hv : findSecret a n with
  | none => rw [hv] at h; cases h
  | some v => rw [hle n v hv]; rfl

theorem createIfMissing_present_after {name : String}
    {payload : List (String × JSONValue)} {kms : Option String}
    {tags : List (String × String)} {s : SMState} {did : Bool} {t : SMState}
    (h : createIfMissing name payload kms tags s = (Except.ok did, t)) :
    (findSecret t.store name).isSome = true := by
  unfold createIfMissing at h
  split at h
  · rename_i hp
    simp only [Prod.mk.injEq, Except.ok.injEq] at h
    obtain ⟨h1, h2⟩ := h
    rw [← h2]
    exact hp
  · simp only [Prod.mk.injEq, Except.ok.injEq] at h
    obtain ⟨h1, h2⟩ := h
    rw [← h2]
    rw [show ({ s with
        store := (name, SecretValue.json (JSONValue.obj payload)) :: s.store,
        trace := (if tags.isEmpty then [StoreOp.create name]
          else [StoreOp.tag name, StoreOp.create name]) ++
          StoreOp.describe name :: s.trace } : SMState).store
        = (name, SecretValue.json (JSONValue.obj payload)) :: s.store from rfl]
    rw [findSecret_cons_self]
    rfl

theorem createPlainIfMissing_present_after {name secretString : String}
    {kms : Option String} {tags : List (String × String)} {s : SMState}
    {did : Bool} {t : SMState}
    (h : createPlainIfMissing name secretString kms tags s =
      (Except.ok did, t)) :
    (findSecret t.store name).isSome = true := by
  unfold createPlainIfMissing at h
  split at h
  · rename_i hp
    simp only [Prod.mk.injEq, Except.ok.injEq] at h
    obtain ⟨h1, h2⟩ := h
    rw [← h2]
    exact hp
  · simp only [Prod.mk.injEq, Except.ok.injEq] at h
    obtain ⟨h1, h2⟩ := h
    rw [← h2]
    rw [show ({ s with
        store := (name, SecretValue.plain secretString) :: s.store,
        trace := (if tags.isEmpty then [StoreOp.create name]
          else [StoreOp.tag name, StoreOp.create name]) ++
          StoreOp.describe name :: s.trace } : SMState).store
        = (name, SecretValue.plain secretString) :: s.store from rfl]
    rw [findSecret_cons_self]
    rfl

theorem perService_post {ent : Nat → String} {c : Ctx} :
    ∀ {svcs : List String} {s : SMState}
      {out : List String × List (String × String)} {t : SMState},
      perServiceCreds ent c svcs s = (Except.ok out, t) →
      (∀ svc, svc ∈ svcs →
        (findSecret t.store (secretName c.project c.envName svc)).isSome = true)
      ∧ (∀ sv pw, (sv, pw) ∈ out.2 → sv ∈ svcs) := by
  intro svcs
  induction svcs with
  | nil =>
      intro s out t h
      unfold perServiceCreds at h
      rw [run_pure] at h
      simp only [Prod.mk.injEq, Except.ok.injEq] at h
      obtain ⟨h1, h2⟩ := h
      constructor
      · intro svc hm
        cases hm
      · intro sv pw hm
        rw [← h1] at hm
        cases hm
  | cons svc rest ih =>
      intro s out t h
      unfold perServiceCreds at h
      obtain ⟨pwd, u1, hd, h⟩ := bind_eq_ok h
      obtain ⟨did, u2, hc, h⟩ := bind_eq_ok h
      obtain ⟨restOut, u3, hr, hp⟩ := bind_eq_ok h
      rw [run_pure] at hp
      simp only [Prod.mk.injEq, Except.ok.injEq] at hp
      obtain ⟨hout, ht⟩ := hp
      obtain ⟨ihPres, ihMem⟩ := ih hr
      have hEx : StoreLe u2.store u3.store ∧
          PlainFreshOnly ([] : List String) u2.store u3.store :=
        ext_out (ext_perServiceCreds ent c rest) hr
      have hpres2 : (findSecret u2.store
          (secretName c.project c.envName svc)).isSome = true :=
        createIfMissing_present_after hc
      subst ht
      constructor
      · intro sv hm
        rcases List.mem_cons.mp hm with he | hm'
        · subst he
          exact storeLe_isSome hEx.1 hpres2
        · exact ihPres sv hm'
      · intro sv pw hm
        rw [← hout] at hm
        dsimp only at hm
        cases did with
        | true =>
            rcases List.mem_cons.mp hm with he | hm'
            · rw [Prod.mk.injEq] at he
              rw [he.1]
              exact List.mem_cons_self _ _
            · exact List.mem_cons_of_mem _ (ihMem sv pw hm')
        | false => exact List.mem_cons_of_mem _ (ihMem sv pw hm)

theorem metadata_post {ent : Nat → String} {c : Ctx} {flags : CreateFlags}
    {g : G3Auto} {cache : List (String × String)} {s : SMState}
    {md : List String × Option String} {t : SMState}
    (h : metadataG3autoBlock ent c flags g cache s = (Except.ok md, t)) :
    (flags.metadataG3auto = true → optTruthy g.hostname = true
      ∧ (findSecret t.store
          (secretName c.project c.envName "metadata-g3auto")).isSome = true) := by
  unfold metadataG3autoBlock at h
  split at h
  · split at h
    · rename_i hf hh
      obtain ⟨dbp, u1, h1, h⟩ := bind_eq_ok h
      obtain ⟨apw, u2, h2, h⟩ := bind_eq_ok h
      obtain ⟨did, u3, h3, h⟩ := bind_eq_ok h
      rw [run_pure] at h
      simp only [Prod.mk.injEq, Except.ok.injEq] at h
      obtain ⟨hmd, ht⟩ := h
      subst ht
      exact fun _ => ⟨hh, createIfMissing_present_after h3⟩
    · rw [run_throwSM] at h
      exact absurd h (by simp)
  · rename_i hf
    exact fun hx => absurd hx hf

theorem wts_post {ent : Nat → String} {c : Ctx} {flags : CreateFlags}
    {g : G3Auto} {s : SMState} {wts : List String} {t : SMState}
    (h : wtsG3autoBlock ent c flags g s = (Except.ok wts, t)) :
    (flags.wtsG3auto = true → optTruthy g.hostname = true
      ∧ (findSecret t.store
          (secretName c.project c.envName "wts-g3auto")).isSome = true) := by
  unfold wtsG3autoBlock at h
  split at h
  · split at h
    · rename_i hf hh
      obtain ⟨ek, u1, h1, h⟩ := bind_eq_ok h
      obtain ⟨sk, u2, h2, h⟩ := bind_eq_ok h
      obtain ⟨did, u3, h3, h⟩ := bind_eq_ok h
      rw [run_pure] at h
      simp only [Prod.mk.injEq, Except.ok.injEq] at h
      obtain ⟨hw, ht⟩ := h
      subst ht
      exact fun _ => ⟨hh, createIfMissing_present_after h3⟩
    · rw [run_throwSM] at h
      exact absurd h (by simp)
  · rename_i hf
    exact fun hx => absurd hx hf

theorem pelican_post {c : Ctx} {flags : CreateFlags} {g : G3Auto}
    {s : SMState} {pel : List String} {t : SMState}
    (h : pelicanBlock c flags g s = (Except.ok pel, t)) :
    (flags.pelicanserviceG3auto = true →
      (optTruthy g.hostname && optTruthy g.pelicanBucketName) = true
      ∧ (findSecret t.store
          (secretName c.project c.envName "pelicanservice-g3auto")).isSome
          = true) := by
  unfold pelicanBlock at h
  split at h
  · split at h
    · rename_i hf hh
      obtain ⟨did, u1, h1, h⟩ := bind_eq_ok h
      rw [run_pure] at h
      simp only [Prod.mk.injEq, Except.ok.injEq] at h
      obtain ⟨hw, ht⟩ := h
      subst ht
      exact fun _ => ⟨hh, createIfMissing_present_after h1⟩
    · rw [run_throwSM] at h
      exact absurd h (by simp)
  · rename_i hf
    exact fun hx => absurd hx hf

theorem manifest_post {c : Ctx} {flags : CreateFlags} {g : G3Auto}
    {s : SMState} {man : List String} {t : SMState}
    (h : manifestBlock c flags g s = (Except.ok man, t)) :
    (flags.manifestserviceG3auto = true →
      (optTruthy g.hostname && optTruthy g.manifestBucketName) = true
      ∧ (findSecret t.store
          (secretName c.project c.envName "manifestservice-g3auto")).isSome
          = true) := by
  unfold manifestBlock at h
  split at h
  · split at h
    · rename_i hf hh
      obtain ⟨did, u1, h1, h⟩ := bind_eq_ok h
      rw [run_pure] at h
      simp only [Prod.mk.injEq, Except.ok.injEq] at h
      obtain ⟨hw, ht⟩ := h
      subst ht
      exact fun _ => ⟨hh, createIfMissing_present_after h1⟩
    · rw [run_throwSM] at h
      exact absurd h (by simp)
  · rename_i hf
    exact fun hx => absurd hx hf

theorem audit_post {c : Ctx} {flags : CreateFlags} {g : G3Auto}
    {region : String} {s : SMState} {aud : List String} {t : SMState}
    (h : auditBlock c flags g region s = (Except.ok aud, t)) :
    (flags.auditGen3auto = true → optTruthy g.auditSqsUrl = true
      ∧ (findSecret t.store
          (secretName c.project c.envName "audit-g3auto")).isSome = true) := by
  unfold auditBlock at h
  split at h
  · split at h
    · rename_i hf hh
      obtain ⟨did, u1, h1, h⟩ := bind_eq_ok h
      rw [run_pure] at h
      simp only [Prod.mk.injEq, Except.ok.injEq] at h
      obtain ⟨hw, ht⟩ := h
      subst ht
      exact fun _ => ⟨hh, createIfMissing_present_after h1⟩
    · rw [run_throwSM] at h
      exact absurd h (by simp)
  · rename_i hf
    exact fun hx => absurd hx hf

theorem ssj_post {c : Ctx} {flags : CreateFlags} {g : G3Auto}
    {region : String} {ipw mpw : Option String} {s : SMState}
    {ssj : List String} {t : SMState}
    (h : ssjBlock c flags g region ipw mpw s = (Except.ok ssj, t)) :
    (flags.ssjdispatcherCreds = true → optTruthy g.ssjSqsUrl = true
      ∧ (findSecret t.store
          (secretName c.project c.envName "ssjdispatcher-creds")).isSome
          = true) := by
  unfold ssjBlock at h
  split at h
  · split at h
    · rename_i hf hh
      obtain ⟨did, u1, h1, h⟩ := bind_eq_ok h
      rw [run_pure] at h
      simp only [Prod.mk.injEq, Except.ok.injEq] at h
      obtain ⟨hw, ht⟩ := h
      subst ht
      exact fun _ => ⟨hh, createIfMissing_present_after h1⟩
    · rw [run_throwSM] at h
      exact absurd h (by simp)
  · rename_i hf
    exact fun hx => absurd hx hf

theorem jwt_post {ent : Nat → String} {c : Ctx} {flags : CreateFlags}
    {s : SMState} {jwt : List String} {t : SMState}
    (h : fenceJwtBlock ent c flags s = (Except.ok jwt, t)) :
    (flags.fenceJwtPrivateKey = true →
      (findSecret t.store
        (secretName c.project c.envName "fence-jwt-key")).isSome = true) := by
  unfold fenceJwtBlock at h
  split at h
  · rename_i hf
    obtain ⟨pem, u1, h1, h⟩ := bind_eq_ok h
    obtain ⟨did, u2, h2, h⟩ := bind_eq_ok h
    rw [run_pure] at h
    simp only [Prod.mk.injEq, Except.ok.injEq] at h
    obtain ⟨hw, ht⟩ := h
    subst ht
    exact fun _ => createPlainIfMissing_present_after h2
  · rename_i hf
    exact fun hx => absurd hx hf

theorem indexd_post {c : Ctx} {cache : List (String × String)}
    {stat : List (String × JSONValue)} {users : List String}
    {ipw gw : Option String} {s : SMState} {idx : List String} {t : SMState}
    (h : indexdServiceBlock c cache stat users ipw gw s = (Except.ok idx, t)) :
    (findSecret t.store
      (secretName c.project c.envName "indexd-service")).isSome = true
    ∧ (tokTruthy (staticTokens stat) "fence" = false →
        cacheTruthy cache "fence" = true ∨
          JsonOrAbsent s.store (secretName c.project c.envName "fence"))
    ∧ (tokTruthy (staticTokens stat) "sheepdog" = false →
        cacheTruthy cache "sheepdog" = true ∨
          JsonOrAbsent s.store (secretName c.project c.envName "sheepdog"))
    ∧ (tokTruthy (staticTokens stat) "gateway" = false →
        optTruthy gw = false →
          JsonOrAbsent s.store
            (secretName c.project c.envName "metadata-g3auto")) := by
  unfold indexdServiceBlock at h
  dsimp only at h
  obtain ⟨t1, u1, hF1, h⟩ := bind_eq_ok h
  obtain ⟨t2, u2, hS1, h⟩ := bind_eq_ok h
  obtain ⟨t4, u3, hG1, h⟩ := bind_eq_ok h
  obtain ⟨did, u4, hC1, h⟩ := bind_eq_ok h
  rw [run_pure] at h
  simp only [Prod.mk.injEq, Except.ok.injEq] at h
  obtain ⟨hidx, ht⟩ := h
  subst ht
  obtain ⟨hst1, hsh1, hreadF⟩ := fenceTokenStep_ok_inv hF1
  obtain ⟨hst2, hsh2⟩ := sheepdogTokenStep_ok_inv hS1
  refine ⟨createIfMissing_present_after hC1, hreadF, ?_, ?_⟩
  · intro hx
    have hx1 : tokTruthy t1 "sheepdog" = false := by
      cases hsh1 with
      | inl he => rw [he]; exact hx
      | inr he =>
          obtain ⟨v, he⟩ := he
          rw [he, tokTruthy_setTok_ne _ (by decide)]
          exact hx
    have hja := sheepdog_read_inv hS1 hx1
    rw [hst1] at hja
    exact hja
  · intro hx hgw
    have hx1 : tokTruthy t1 "gateway" = false := by
      cases hsh1 with
      | inl he => rw [he]; exact hx
      | inr he =>
          obtain ⟨v, he⟩ := he
          rw [he, tokTruthy_setTok_ne _ (by decide)]
          exact hx
    have hx2 : tokTruthy t2 "gateway" = false := by
      cases hsh2 with
      | inl he => rw [he]; exact hx1
      | inr he =>
          obtain ⟨v, he⟩ := he
          rw [he, tokTruthy_setTok_ne _ (by decide)]
          exact hx1
    have hx3 : tokTruthy (if tokTruthy t2 "ssj" = true then t2
        else setTok t2 "ssj" (jsOr ipw "REPLACE_ME")) "gateway" = false := by
      by_cases hssj : tokTruthy t2 "ssj" = true
      · rw [if_pos hssj]
        exact hx2
      · rw [if_neg hssj, tokTruthy_setTok_ne _ (by decide)]
        exact hx2
    have hja := gateway_read_inv hG1 hx3 hgw
    rw [hst2, hst1] at hja
    exact hja

/-- C2: invoking the handler twice with identical inputs against a store
initially containing none of the target secret names yields, on the second
invocation, an empty `created` list and leaves the whole secret store —
hence every payload written by the first invocation — byte-identical. -/
theorem handler_idempotent {ent1 ent2 : Nat → String}
    {regionEnv : Option String} {ev : HandlerEvent} {s0 : SMState}
    {r1 : HandlerResult} {sF : SMState}
    (habsent : ∀ n, n ∈ producedNames ev.props → findSecret s0.store n = none)
    (h1 : handler ent1 regionEnv ev s0 = (Except.ok r1, sF)) :
    ∃ r2 s2, handler ent2 regionEnv ev sF = (Except.ok r2, s2)
      ∧ r2.created = [] ∧ s2.store = sF.store := by
  by_cases hdel : ev.requestType = "Delete"
  · refine ⟨HandlerResult.mk
        ("gen3-secrets-" ++ ev.props.project ++ "-" ++ ev.props.envName) [],
      sF, ?_, rfl, rfl⟩
    unfold handler
    rw [if_pos hdel]
    rfl
  · obtain ⟨hq, s1, sc, s2, md, s3, wts, s4, pel, s5, man, s6, aud, s7, ipw,
      s8, mpw, s9, ssj, s10, idx, s11, jwt, s12, hd1, hd2, hd3, hd4, hd5, hd6,
      hd7, hd8, hd9, hd10, hd11, hd12, hteq, hres⟩ :=
      handler_ok_decomp hdel h1
    subst hteq
    have EH : StoreLe s0.store sF.store ∧
        PlainFreshOnly [secretName ev.props.project ev.props.envName
          "fence-jwt-key"] s0.store sF.store :=
      ext_out (ext_handler ent1 regionEnv ev) h1
    have E12 : StoreLe s11.store sF.store ∧
        PlainFreshOnly [secretName ev.props.project ev.props.envName
          "fence-jwt-key"] s11.store sF.store :=
      ext_out (ext_fenceJwtBlock ent1 (mkCtx ev.props hq)
        ev.props.createFlags) hd12
    have E11 : StoreLe s10.store s11.store ∧
        PlainFreshOnly [secretName ev.props.project ev.props.envName
          "fence-jwt-key"] s10.store s11.store :=
      ext_out (ext_indexdServiceBlock _ _ _ _ _ _) hd11
    have E10 : StoreLe s9.store s10.store ∧
        PlainFreshOnly [secretName ev.props.project ev.props.envName
          "fence-jwt-key"] s9.store s10.store :=
      ext_out (ext_ssjBlock _ _ _ _ _ _) hd10
    have E9 : StoreLe s8.store s9.store ∧
        PlainFreshOnly [secretName ev.props.project ev.props.envName
          "fence-jwt-key"] s8.store s9.store :=
      ext_out (ext_getDbPassword _ _ _ _) hd9
    have E8 : StoreLe s7.store s8.store ∧
        PlainFreshOnly [secretName ev.props.project ev.props.envName
          "fence-jwt-key"] s7.store s8.store :=
      ext_out (ext_getDbPassword _ _ _ _) hd8
    have E7 : StoreLe s6.store s7.store ∧
        PlainFreshOnly [secretName ev.props.project ev.props.envName
          "fence-jwt-key"] s6.store s7.store :=
      ext_out (ext_auditBlock _ _ _ _) hd7
    have E6 : StoreLe s5.store s6.store ∧
        PlainFreshOnly [secretName ev.props.project ev.props.envName
          "fence-jwt-key"] s5.store s6.store :=
      ext_out (ext_manifestBlock _ _ _) hd6
    have E5 : StoreLe s4.store s5.store ∧
        PlainFreshOnly [secretName ev.props.project ev.props.envName
          "fence-jwt-key"] s4.store s5.store :=
      ext_out (ext_pelicanBlock _ _ _) hd5
    have E4 : StoreLe s3.store s4.store ∧
        PlainFreshOnly [secretName ev.props.project ev.props.envName
          "fence-jwt-key"] s3.store s4.store :=
      ext_out (ext_wtsG3autoBlock _ _ _ _) hd4
    have E3 : StoreLe s2.store s3.store ∧
        PlainFreshOnly [secretName ev.props.project ev.props.envName
          "fence-jwt-key"] s2.store s3.store :=
      ext_out (ext_metadataG3autoBlock _ _ _ _ _) hd3
    have K11 := E12
    have K10 : StoreLe s10.store sF.store ∧
        PlainFreshOnly [secretName ev.props.project ev.props.envName
          "fence-jwt-key"] s10.store sF.store :=
      ⟨storeLe_trans E11.1 K11.1, plainFreshOnly_comp E11.2 K11.1 K11.2⟩
    have K9 : StoreLe s9.store sF.store ∧
        PlainFreshOnly [secretName ev.props.project ev.props.envName
          "fence-jwt-key"] s9.store sF.store :=
      ⟨storeLe_trans E10.1 K10.1, plainFreshOnly_comp E10.2 K10.1 K10.2⟩
    have K8 : StoreLe s8.store sF.store ∧
        PlainFreshOnly [secretName ev.props.project ev.props.envName
          "fence-jwt-key"] s8.store sF.store :=
      ⟨storeLe_trans E9.1 K9.1, plainFreshOnly_comp E9.2 K9.1 K9.2⟩
    have K7 : StoreLe s7.store sF.store ∧
        PlainFreshOnly [secretName ev.props.project ev.props.envName
          "fence-jwt-key"] s7.store sF.store :=
      ⟨storeLe_trans E8.1 K8.1, plainFreshOnly_comp E8.2 K8.1 K8.2⟩
    have K6 : StoreLe s6.store sF.store ∧
        PlainFreshOnly [secretName ev.props.project ev.props.envName
          "fence-jwt-key"] s6.store sF.store :=
      ⟨storeLe_trans E7.1 K7.1, plainFreshOnly_comp E7.2 K7.1 K7.2⟩
    have K5 : StoreLe s5.store sF.store ∧
        PlainFreshOnly [secretName ev.props.project ev.props.envName
          "fence-jwt-key"] s5.store sF.store :=
      ⟨storeLe_trans E6.1 K6.1, plainFreshOnly_comp E6.2 K6.1 K6.2⟩
    have K4 : StoreLe s4.store sF.store ∧
        PlainFreshOnly [secretName ev.props.project ev.props.envName
          "fence-jwt-key"] s4.store sF.store :=
      ⟨storeLe_trans E5.1 K5.1, plainFreshOnly_comp E5.2 K5.1 K5.2⟩
    have K3 : StoreLe s3.store sF.store ∧
        PlainFreshOnly [secretName ev.props.project ev.props.envName
          "fence-jwt-key"] s3.store sF.store :=
      ⟨storeLe_trans E4.1 K4.1, plainFreshOnly_comp E4.2 K4.1 K4.2⟩
    have K2 : StoreLe s2.store sF.store ∧
        PlainFreshOnly [secretName ev.props.project ev.props.envName
          "fence-jwt-key"] s2.store sF.store :=
      ⟨storeLe_trans E3.1 K3.1, plainFreshOnly_comp E3.2 K3.1 K3.2⟩
    have hnotin : ∀ sfx : String, ¬ sfx = "fence-jwt-key" →
        secretName ev.props.project ev.props.envName sfx ∉
          [secretName ev.props.project ev.props.envName "fence-jwt-key"] := by
      intro sfx hne hmem
      exact hne (secretName_inj (List.mem_singleton.mp hmem))
    have cacheSvc : ∀ sv pw, (sv, pw) ∈ sc.2 → sv ∈ ev.props.services :=
      (perService_post hd2).2
    have liftJA : ∀ (svc : String) (mid : List (String × SecretValue)),
        ¬ svc = "fence-jwt-key" →
        StoreLe mid sF.store →
        PlainFreshOnly [secretName ev.props.project ev.props.envName
          "fence-jwt-key"] mid sF.store →
        (cacheTruthy sc.2 svc = true ∨
          JsonOrAbsent mid (secretName ev.props.project ev.props.envName svc)) →
        JsonOrAbsent sF.store
          (secretName ev.props.project ev.props.envName svc) := by
      intro svc mid hne hle hpf hor
      cases hor with
      | inl hc =>
          unfold cacheTruthy at hc
          cases hl : lookupStr sc.2 svc with
          | none => rw [hl] at hc; cases hc
          | some pw =>
              have hsvc : svc ∈ ev.props.services :=
                cacheSvc svc pw (lookupStr_mem hl)
              have hin : secretName ev.props.project ev.props.envName svc ∈
                  producedNames ev.props := by
                unfold producedNames
                exact List.mem_append.mpr
                  (Or.inl (List.mem_map.mpr ⟨svc, hsvc, rfl⟩))
              exact fresh_jsonOrAbsent EH.2 (habsent _ hin) (hnotin svc hne)
      | inr hja => exact jsonOrAbsent_lift hle hpf (hnotin svc hne) hja
    have JAindex : JsonOrAbsent sF.store
        (secretName ev.props.project ev.props.envName "index") :=
      liftJA "index" s7.store (by decide) K7.1 K7.2
        (getDbPassword_ok_inv hd8).2.2
    have JAmetadata : JsonOrAbsent sF.store
        (secretName ev.props.project ev.props.envName "metadata") :=
      liftJA "metadata" s8.store (by decide) K8.1 K8.2
        (getDbPassword_ok_inv hd9).2.2
    obtain ⟨presIdx0, horF, horS, horG⟩ := indexd_post hd11
    have JAfence : tokTruthy (staticTokens ev.props.indexdServiceStatic)
        "fence" = false →
        JsonOrAbsent sF.store
          (secretName ev.props.project ev.props.envName "fence") :=
      fun hx => liftJA "fence" s10.store (by decide) K10.1 K10.2 (horF hx)
    have JAsheepdog : tokTruthy (staticTokens ev.props.indexdServiceStatic)
        "sheepdog" = false →
        JsonOrAbsent sF.store
          (secretName ev.props.project ev.props.envName "sheepdog") :=
      fun hx => liftJA "sheepdog" s10.store (by decide) K10.1 K10.2 (horS hx)
    have JAmg3 : JsonOrAbsent sF.store
        (secretName ev.props.project ev.props.envName "metadata-g3auto") := by
      have hin : secretName ev.props.project ev.props.envName "metadata-g3auto"
          ∈ producedNames ev.props := by
        unfold producedNames
        simp
      exact fresh_jsonOrAbsent EH.2 (habsent _ hin) (hnotin _ (by decide))
    have presSvc : ∀ sv, sv ∈ ev.props.services →
        (findSecret sF.store
          (secretName ev.props.project ev.props.envName sv)).isSome = true :=
      fun sv hm => storeLe_isSome K2.1 ((perService_post hd2).1 sv hm)
    have presMd : ev.props.createFlags.metadataG3auto = true →
        optTruthy ev.props.g3auto.hostname = true ∧
        (findSecret sF.store (secretName ev.props.project ev.props.envName
          "metadata-g3auto")).isSome = true :=
      fun hf => ⟨(metadata_post hd3 hf).1,
        storeLe_isSome K3.1 (metadata_post hd3 hf).2⟩
    have presWts : ev.props.createFlags.wtsG3auto = true →
        optTruthy ev.props.g3auto.hostname = true ∧
        (findSecret sF.store (secretName ev.props.project ev.props.envName
          "wts-g3auto")).isSome = true :=
      fun hf => ⟨(wts_post hd4 hf).1, storeLe_isSome K4.1 (wts_post hd4 hf).2⟩
    have presPel : ev.props.createFlags.pelicanserviceG3auto = true →
        (optTruthy ev.props.g3auto.hostname &&
          optTruthy ev.props.g3auto.pelicanBucketName) = true ∧
        (findSecret sF.store (secretName ev.props.project ev.props.envName
          "pelicanservice-g3auto")).isSome = true :=
      fun hf => ⟨(pelican_post hd5 hf).1,
        storeLe_isSome K5.1 (pelican_post hd5 hf).2⟩
    have presMan : ev.props.createFlags.manifestserviceG3auto = true →
        (optTruthy ev.props.g3auto.hostname &&
          optTruthy ev.props.g3auto.manifestBucketName) = true ∧
        (findSecret sF.store (secretName ev.props.project ev.props.envName
          "manifestservice-g3auto")).isSome = true :=
      fun hf => ⟨(manifest_post hd6 hf).1,
        storeLe_isSome K6.1 (manifest_post hd6 hf).2⟩
    have presAud : ev.props.createFlags.auditGen3auto = true →
        optTruthy ev.props.g3auto.auditSqsUrl = true ∧
        (findSecret sF.store (secretName ev.props.project ev.props.envName
          "audit-g3auto")).isSome = true :=
      fun hf => ⟨(audit_post hd7 hf).1,
        storeLe_isSome K7.1 (audit_post hd7 hf).2⟩
    have presSsj : ev.props.createFlags.ssjdispatcherCreds = true →
        optTruthy ev.props.g3auto.ssjSqsUrl = true ∧
        (findSecret sF.store (secretName ev.props.project ev.props.envName
          "ssjdispatcher-creds")).isSome = true :=
      fun hf => ⟨(ssj_post hd10 hf).1,
        storeLe_isSome K10.1 (ssj_post hd10 hf).2⟩
    have presIdx : (findSecret sF.store (secretName ev.props.project
        ev.props.envName "indexd-service")).isSome = true :=
      storeLe_isSome K11.1 presIdx0
    have presJwt : ev.props.createFlags.fenceJwtPrivateKey = true →
        (findSecret sF.store (secretName ev.props.project ev.props.envName
          "fence-jwt-key")).isSome = true :=
      fun hf => jwt_post hd12 hf
    obtain ⟨a1, hRD2, ha1s, ha1c⟩ :=
      @resolveDb_again ev.props s0 hq s1 sF hd1 EH.1
    obtain ⟨a2, hPS2, ha2s⟩ :=
      @perService_noop ent2 (mkCtx ev.props hq) ev.props.services a1
        (fun sv hm => by rw [ha1s]; exact presSvc sv hm)
    obtain ⟨gw2, a3, hMD2, ha3s, hgw2⟩ :=
      @metadata_noop ent2 (mkCtx ev.props hq) ev.props.createFlags
        ev.props.g3auto [] a2
        (fun hf => ⟨(presMd hf).1, by rw [ha2s, ha1s]; exact (presMd hf).2,
          Or.inr (by rw [ha2s, ha1s]; exact JAmetadata)⟩)
    obtain ⟨a4, hWTS2, ha4s⟩ :=
      @wts_noop ent2 (mkCtx ev.props hq) ev.props.createFlags ev.props.g3auto
        a3 (fun hf => ⟨(presWts hf).1,
          by rw [ha3s, ha2s, ha1s]; exact (presWts hf).2⟩)
    obtain ⟨a5, hPEL2, ha5s⟩ :=
      @pelican_noop (mkCtx ev.props hq) ev.props.createFlags ev.props.g3auto
        a4 (fun hf => ⟨(presPel hf).1,
          by rw [ha4s, ha3s, ha2s, ha1s]; exact (presPel hf).2⟩)
    obtain ⟨a6, hMAN2, ha6s⟩ :=
      @manifest_noop (mkCtx ev.props hq) ev.props.createFlags ev.props.g3auto
        a5 (fun hf => ⟨(presMan hf).1,
          by rw [ha5s, ha4s, ha3s, ha2s, ha1s]; exact (presMan hf).2⟩)
    obtain ⟨a7, hAUD2, ha7s⟩ :=
      @audit_noop (mkCtx ev.props hq) ev.props.createFlags ev.props.g3auto
        (regionOf ev.props.g3auto regionEnv) a6
        (fun hf => ⟨(presAud hf).1,
          by rw [ha6s, ha5s, ha4s, ha3s, ha2s, ha1s]; exact (presAud hf).2⟩)
    obtain ⟨ipw2, a8, hIP2, ha8s, ha8c⟩ :=
      @getDbPassword_ok ev.props.project ev.props.envName [] "index" a7
        (Or.inr (by
          rw [ha7s, ha6s, ha5s, ha4s, ha3s, ha2s, ha1s]
          exact JAindex))
    obtain ⟨mpw2, a9, hMP2, ha9s, ha9c⟩ :=
      @getDbPassword_ok ev.props.project ev.props.envName [] "metadata" a8
        (Or.inr (by
          rw [ha8s, ha7s, ha6s, ha5s, ha4s, ha3s, ha2s, ha1s]
          exact JAmetadata))
    obtain ⟨a10, hSSJ2, ha10s⟩ :=
      @ssj_noop (mkCtx ev.props hq) ev.props.createFlags ev.props.g3auto
        (regionOf ev.props.g3auto regionEnv) ipw2 mpw2 a9
        (fun hf => ⟨(presSsj hf).1,
          by rw [ha9s, ha8s, ha7s, ha6s, ha5s, ha4s, ha3s, ha2s, ha1s]
             exact (presSsj hf).2⟩)
    obtain ⟨a11, hIDX2, ha11s⟩ :=
      @indexd_noop (mkCtx ev.props hq) [] ev.props.indexdServiceStatic
        ev.props.indexdServiceUsers ipw2 gw2 a10
        (by
          rw [ha10s, ha9s, ha8s, ha7s, ha6s, ha5s, ha4s, ha3s, ha2s, ha1s]
          exact presIdx)
        (fun hx => Or.inr (by
          rw [ha10s, ha9s, ha8s, ha7s, ha6s, ha5s, ha4s, ha3s, ha2s, ha1s]
          exact JAfence hx))
        (fun hx => Or.inr (by
          rw [ha10s, ha9s, ha8s, ha7s, ha6s, ha5s, ha4s, ha3s, ha2s, ha1s]
          exact JAsheepdog hx))
        (fun hx hgw => by
          rw [ha10s, ha9s, ha8s, ha7s, ha6s, ha5s, ha4s, ha3s, ha2s, ha1s]
          exact JAmg3)
    obtain ⟨a12, hJWT2, ha12s⟩ :=
      @jwt_noop ent2 (mkCtx ev.props hq) ev.props.createFlags a11
        (fun hf => by
          rw [ha11s, ha10s, ha9s, ha8s, ha7s, ha6s, ha5s, ha4s, ha3s, ha2s,
            ha1s]
          exact presJwt hf)
    refine ⟨HandlerResult.mk
        ("gen3-secrets-" ++ ev.props.project ++ "-" ++ ev.props.envName) [],
      a12, ?_, rfl, ?_⟩
    · unfold handler
      rw [if_neg hdel]
      dsimp only
      simp only [run_bind, hRD2, hPS2, hMD2, hWTS2, hPEL2, hMAN2, hAUD2,
        hIP2, hMP2, hSSJ2, hIDX2, hJWT2, run_pure]
      rfl
    · rw [ha12s, ha11s, ha10s, ha9s, ha8s, ha7s, ha6s, ha5s, ha4s, ha3s,
        ha2s, ha1s]

theorem handler_idempotent_witness :
    (∀ n, n ∈ producedNames propsW → findSecret stW.store n = none) ∧
    (∃ r2 s2, handler entF none evW ((handler entW none evW stW).2) =
        (Except.ok r2, s2)
      ∧ r2.created = [] ∧ s2.store = ((handler entW none evW stW).2).store) :=
  ⟨by intro n hn; fin_cases hn <;> rfl,
   @handler_idempotent entW entF none evW stW
     ((handler entW none evW stW).1.toOption.getD
       { physicalResourceId := "", created := [] })
     ((handler entW none evW stW).2)
     (by intro n hn; fin_cases hn <;> rfl) (by rfl)⟩

end Gen3Secrets
